import Mathlib

/-!
# Gunchuk: the Wiimote extension emulation layer of `src/gunchuk/wiimote.h`

A shallow embedding of the register file, the stream cipher, the write and read
dispatchers (`receive_bytes`, `handle_request`), the report encoder
(`wiimote_write_buffer`) and the buffer exchange (`wiimote_set_byte`,
`wiimote_swap_buffers`, `wiimote_stream`).

Conventions of the embedding.

* A `byte` is a natural number; every store into a `byte` variable or array cell
  that can leave the range is followed by an explicit `% 256`.
* A C array is a function `Nat → Nat` from indices to cell contents (`Mem`).
* `wiimote_registers` is indexed by the C index expression.  Cells `0 .. 0xFF`
  are the 256 registers; a cell from `0x100` on stands for the memory that
  follows the array, which is what `wiimote_registers + k` addresses for
  `k > 0xFF`.  The code never stores there (the write cursor is a `byte`).
* A report buffer (`byte *`) is a buffer identifier; `bufs id i` is cell `i` of
  buffer `id`.  Buffer `0` is the static `outbuf`.  Report buffers are disjoint
  from the register file.
* `wm_ft`, `wm_sb`, `wm_rand`, `wm_key` and `wm_gentabs` are declared in
  `wm_crypto.h`; the table generator is a parameter `gen` mapping the seed and
  key arrays to the new feedback table and substitution box.
* Calls that leave the core are recorded in logs kept in the state:
  `serial` (`Serial.println`), `received` (`wiimote_receive`), `streamed`
  (`wiimote_stream`, with the buffer it was handed) and `gentabs_calls`
  (`wm_gentabs`, with the seed and key it was handed).  The callbacks act on
  nothing but what their C signature hands them.
-/

namespace Gunchuk

set_option maxRecDepth 8000

/-- A C byte array, as a map from index to cell content -/
abbrev Mem := Nat → Nat

/-- The report buffers: buffer identifier, then index -/
abbrev Bufs := Nat → Nat → Nat

/-- The table generator `wm_gentabs`: from `wm_rand` and `wm_key` to `(wm_ft, wm_sb)` -/
abbrev GenTabs := Mem → Mem → Mem × Mem

/-- The streaming callback type `byte *(*)(byte *buffer)`: it receives the buffer just sent
and the buffer contents, and returns the next buffer and the (possibly overwritten) contents -/
abbrev StreamFn := Nat → Bufs → Nat × Bufs

/-- Array store `m[i] = v` -/
def store (m : Mem) (i v : Nat) : Mem := fun j => if j = i then v else m j

/-- Report buffer store `buffer[i] = v` -/
def storeBuf (b : Bufs) (id i v : Nat) : Bufs :=
  fun k j => if k = id ∧ j = i then v else b k j

/-- The `data` argument of `send_data`: a report buffer, or `wiimote_registers + idx` -/
inductive Ptr where
  | buf (id : Nat)
  | reg (idx : Nat)
  deriving DecidableEq, Repr

/-- All file-scope and function-static variables of `wiimote.h` (and the cipher tables of
`wm_crypto.h`), together with the logs of outward calls -/
structure State where
  calbuf : Mem
  sx : Nat
  sy : Nat
  accelX : Nat
  accelY : Nat
  accelZ : Nat
  buttonStates : Nat → Bool
  nunchukReady : Bool
  bufs : Bufs
  curbuf : Nat
  state : Nat
  crypt_setup_done : Nat
  wiimote_receive : Bool
  wiimote_stream : Option StreamFn
  wiimote_registers : Mem
  wm_rand : Mem
  wm_key : Mem
  wm_ft : Mem
  wm_sb : Mem
  last_state : Nat
  offset : Nat
  serial : List Nat
  received : List (Nat × Nat)
  streamed : List Nat
  gentabs_calls : List (List Nat × List Nat)

/-- Identification sequence `idbuf` -/
def idbuf : Mem := fun i => [0x00, 0x00, 0xa4, 0x20, 0x67, 0x67].getD i 0

/-- Initial content of `calbuf[16]`: fourteen payload bytes, the last two cells zero -/
def calbuf_init : Mem := fun i =>
  [0x7F, 0x7F, 0x7F, 0x00, 0xB4, 0xB4, 0xB4, 0x00, 0xFF, 0x00, 0x7F, 0xFF, 0x00, 0x7F].getD i 0

/-- The state given by the static initialisers, before `wiimote_init` runs: variables
without an initialiser are zero.  `after` is the content of the memory that follows
`wiimote_registers`. -/
def boot (after : Mem) : State where
  calbuf := calbuf_init
  sx := 0x7F
  sy := 0x7F
  accelX := 0x80
  accelY := 0x80
  accelZ := 0x80
  buttonStates := fun _ => false
  nunchukReady := false
  bufs := fun _ _ => 0
  curbuf := 0
  state := 0
  crypt_setup_done := 0
  wiimote_receive := false
  wiimote_stream := none
  wiimote_registers := fun i => if i < 0x100 then 0 else after i
  wm_rand := fun _ => 0
  wm_key := fun _ => 0
  wm_ft := fun _ => 0
  wm_sb := fun _ => 0
  last_state := 0xFF
  offset := 0
  serial := []
  received := []
  streamed := []
  gentabs_calls := []

/-- Dereference `data[i]` -/
def State.load (s : State) : Ptr → Nat → Nat
  | Ptr.buf id, i => s.bufs id i
  | Ptr.reg idx, i => s.wiimote_registers (idx + i)

/-- The guard `wiimote_registers[0xF0] == 0xAA && crypt_setup_done` -/
def State.cipher_on (s : State) : Bool :=
  s.wiimote_registers 0xF0 == 0xAA && s.crypt_setup_done != 0

/-- Write-side transform of `receive_bytes`: `(d ^ wm_sb[curr % 8]) + wm_ft[curr % 8]`,
stored into a `byte` -/
def decrypt_byte (ft sb : Mem) (curr d : Nat) : Nat :=
  ((d ^^^ sb (curr % 8)) + ft (curr % 8)) % 256

/-- Read-side transform of `send_data`: `(data[i] - wm_ft[a % 8]) ^ wm_sb[a % 8]`, stored into
a `uint8_t`.  The difference is an `int` and may be negative; only its low eight bits reach
the buffer, and they are those of `p + 256 - wm_ft[a % 8]` for byte operands. -/
def encrypt_byte (ft sb : Mem) (a p : Nat) : Nat :=
  (((p + 256 - ft (a % 8)) % 256) ^^^ sb (a % 8)) % 256

/-- Translation of `setup_encryption` -/
def setup_encryption (gen : GenTabs) (s : State) : State :=
  let rand := (List.range' 0x40 10).foldl
    (fun m i => store m (9 - (i - 0x40)) (s.wiimote_registers i)) s.wm_rand
  let key := (List.range' 0x4A 6).foldl
    (fun m i => store m (5 - (i - 0x4A)) (s.wiimote_registers i)) s.wm_key
  let t := gen rand key
  { s with
    wm_rand := rand,
    wm_key := key,
    wm_ft := t.1,
    wm_sb := t.2,
    gentabs_calls := s.gentabs_calls ++ [((List.range 10).map rand, (List.range 6).map key)],
    crypt_setup_done := 1 }

/-- Translation of `set_caldata(caldata)`.  The result is the new state and the content of the
array `caldata` points to after the call; the checksum loop reads the global `calbuf`. -/
def set_caldata (s : State) (caldata : Mem) : State × Mem :=
  let calchecksum := (List.range 14).foldl (fun c i => (c + s.calbuf i) % 256) 0
  let caldata1 := store caldata 14 ((calchecksum + 0x55) % 256)
  let caldata2 := store caldata1 15 ((calchecksum + 0xAA) % 256)
  let regs := (List.range' 0x20 16).foldl
    (fun m i => store (store m i (caldata2 (i - 0x20))) (i + 0x10) (caldata2 (i - 0x20)))
    s.wiimote_registers
  ({ s with wiimote_registers := regs }, caldata2)

/-- The call `set_caldata()` with the default argument: `caldata` is `calbuf` itself, so the
two checksum cells are written into `calbuf` -/
def set_caldata_default (s : State) : State :=
  let r := set_caldata s s.calbuf
  { r.1 with calbuf := r.2 }

/-- Translation of `send_data`: the bytes handed to `Wire.write` -/
def send_data (s : State) (data : Ptr) (size addr : Nat) : List Nat :=
  if s.cipher_on then
    (List.range size).map (fun i => encrypt_byte s.wm_ft s.wm_sb (addr + i) (s.load data i))
  else
    (List.range size).map (fun i => s.load data i)

/-- Loop state of `receive_bytes`: the globals, the write cursor `curr` and the local flag
`crypt_keys_received` -/
structure RecvLoop where
  st : State
  curr : Nat
  crypt_keys_received : Nat

/-- One iteration of the `for` loop of `receive_bytes`, for base address `addr` and the byte
`d` read from the wire -/
def receive_byte (addr : Nat) (l : RecvLoop) (d : Nat) : RecvLoop :=
  let s1 := if addr = 0xF0 ∧ d = 0x55 then { l.st with crypt_setup_done := 0 } else l.st
  let s2 :=
    if s1.cipher_on then
      let p := decrypt_byte s1.wm_ft s1.wm_sb l.curr d
      { s1 with wiimote_registers := store s1.wiimote_registers l.curr p }
    else
      { s1 with wiimote_registers := store s1.wiimote_registers l.curr d }
  let curr := (l.curr + 1) % 256
  { st := s2,
    curr := curr,
    crypt_keys_received := if curr = 0x50 then 1 else l.crypt_keys_received }

/-- The tail of `receive_bytes`, after the `count` branches: the serial print of a non-zero
`state` and the key-schedule setup when the flag is set -/
def receive_finish (gen : GenTabs) (s : State) (crypt_keys_received : Nat) : State :=
  let s1 := if s.state ≠ 0 then { s with serial := s.serial ++ [s.state] } else s
  if crypt_keys_received ≠ 0 then setup_encryption gen s1 else s1

/-- Translation of `receive_bytes(count)`, where `rx` are the `count` bytes that `Wire.read()`
delivers, each assigned to a `byte` -/
def receive_bytes (gen : GenTabs) (s : State) (rx : List Nat) : State :=
  match rx with
  | [] => receive_finish gen s 0
  | [b] => receive_finish gen { s with state := b % 256 } 0
  | a :: data =>
    let addr := a % 256
    let l := (data.map (· % 256)).foldl (receive_byte addr)
      { st := s, curr := addr, crypt_keys_received := 0 }
    let s1 :=
      if l.st.wiimote_receive then
        { l.st with received := l.st.received ++ [(addr, (rx.length % 256 + 255) % 256)] }
      else l.st
    receive_finish gen s1 l.crypt_keys_received

/-- The `send_data(data, size, addr)` call made by `handle_request` -/
structure SendCall where
  data : Ptr
  size : Nat
  addr : Nat
  deriving DecidableEq, Repr

/-- The cursor update of the `0x20`/`0x30` case of `handle_request`, with its serial print -/
def cursor_cal (s : State) : State :=
  let s1 :=
    if s.last_state = s.state then
      { s with offset := (s.offset + 8) % 256, last_state := 0xFF }
    else
      { s with last_state := s.state, offset := 0 }
  { s1 with serial := s1.serial ++ [s1.offset] }

/-- The cursor update of the `default` case of `handle_request` -/
def cursor_default (s : State) : State :=
  if s.last_state = s.state then
    { s with offset := (s.offset + 8) % 256 }
  else
    { s with last_state := s.state, offset := 0 }

/-- First half of `handle_request`: the `switch` on `state` up to the `send_data` call, giving
the state after the cursor update and the arguments of the call.  The `addr` parameter is a
`uint8_t`, the `data` pointer is not truncated. -/
def handle_request_select (s : State) : State × SendCall :=
  if s.state = 0x00 then
    (s, { data := Ptr.buf s.curbuf, size := 6, addr := 0x00 })
  else if s.state = 0xFA then
    (s, { data := Ptr.reg s.state, size := 6, addr := s.state % 256 })
  else if s.state = 0x20 ∨ s.state = 0x30 then
    let s1 := cursor_cal s
    (s1, { data := Ptr.reg (s1.state + s1.offset), size := 8,
           addr := (s1.state + s1.offset) % 256 })
  else
    let s1 := cursor_default s
    (s1, { data := Ptr.reg (s1.state + s1.offset), size := 8,
           addr := (s1.state + s1.offset) % 256 })

/-- The streaming step of case `0x00`: `if (wiimote_stream) curbuf = wiimote_stream(curbuf)` -/
def stream_step (s : State) : State :=
  match s.wiimote_stream with
  | some h =>
    let r := h s.curbuf s.bufs
    { s with curbuf := r.1, bufs := r.2, streamed := s.streamed ++ [s.curbuf] }
  | none => s

/-- Translation of `handle_request`: the new state and the bytes handed to `Wire.write` -/
def handle_request (s : State) : State × List Nat :=
  let r := handle_request_select s
  let out := send_data r.1 r.2.data r.2.size r.2.addr
  if s.state = 0x00 then (stream_step r.1, out) else (r.1, out)

/-- Translation of `wiimote_set_byte` -/
def wiimote_set_byte (s : State) (index value : Nat) : State :=
  { s with bufs := storeBuf s.bufs s.curbuf index (value % 256) }

/-- Translation of `wiimote_swap_buffers`: the new state and the returned buffer -/
def wiimote_swap_buffers (s : State) (buffer : Nat) : State × Nat :=
  let tmp := s.curbuf
  ({ s with curbuf := buffer }, tmp)

/-- A `bool` promoted to `int` -/
def b2n (b : Bool) : Nat := if b then 1 else 0

/-- Bitwise complement `~x` of an `int` holding a byte value, as a 32-bit pattern -/
def compl32 (x : Nat) : Nat := 0xFFFFFFFF - x

/-- Translation of `wiimote_write_buffer(buffer)` -/
def wiimote_write_buffer (s : State) (buffer : Nat) : State :=
  let b0 := ((s.accelZ &&& 0xC0) ||| (s.sx >>> 2)) % 256
  let b1 := (((s.accelZ &&& 0x30) <<< 2) ||| (s.sy >>> 2)) % 256
  let b2 := (((s.accelZ &&& 0x08) <<< 4) ||| (s.accelX >>> 1)) % 256
  let b3 := (((s.accelZ &&& 0x04) <<< 5) ||| (s.accelY >>> 1)) % 256
  let b4 := ((b2n (s.buttonStates 5) <<< 7) ||| (b2n (s.buttonStates 7) <<< 6) |||
    (b2n s.nunchukReady <<< 5) ||| (b2n (s.buttonStates 8) <<< 4) |||
    (b2n (s.buttonStates 9) <<< 3) ||| (b2n (s.buttonStates 10) <<< 2) |||
    (s.accelZ &&& 0x02)) % 256
  let b5 := ((b2n (s.buttonStates 12) <<< 7) ||| (b2n (s.buttonStates 1) <<< 6) |||
    (b2n (s.buttonStates 3) <<< 5) ||| (b2n (s.buttonStates 0) <<< 4) |||
    (b2n (s.buttonStates 2) <<< 3) ||| (b2n (s.buttonStates 11) <<< 2) |||
    (b2n (s.buttonStates 4) <<< 1) ||| b2n (s.buttonStates 6)) % 256
  let m0 := storeBuf s.bufs buffer 0 b0
  let m1 := storeBuf m0 buffer 1 b1
  let m2 := storeBuf m1 buffer 2 b2
  let m3 := storeBuf m2 buffer 3 b3
  let m4 := storeBuf m3 buffer 4 b4
  let m5 := storeBuf m4 buffer 5 b5
  let m6 := storeBuf m5 buffer 4 ((m5 buffer 4 ^^^ 0x3F) % 256)
  let m7 := storeBuf m6 buffer 5 (compl32 (m6 buffer 5) % 256)
  { s with bufs := m7 }

/-- Translation of `wiimote_init`; the `Wire` calls only register the two handlers -/
def wiimote_init (s : State) : State :=
  let filled : Mem := fun i => if i < 0x100 then 0xFF else s.wiimote_registers i
  let s1 := { s with wiimote_registers := filled }
  let ident := (List.range' 0xFA 6).foldl (fun m i => store m i (idbuf (i - 0xFA))) filled
  let s2 := { s1 with wiimote_registers := ident }
  let s3 := set_caldata_default s2
  let s4 := wiimote_write_buffer s3 s3.curbuf
  let s5 := { s4 with wiimote_registers := store s4.wiimote_registers 0xF0 0x55 }
  { s5 with wiimote_registers := store s5.wiimote_registers 0xFB 0x00 }

/-- The six bytes of report buffer `id` -/
def State.report (s : State) (id : Nat) : List Nat :=
  (List.range 6).map (fun i => s.bufs id i)

/-- The state after `n` read requests in a row -/
def reads : Nat → State → State
  | 0, s => s
  | n + 1, s => (handle_request (reads n s)).1

/-- What the transport and the application can do to the core -/
inductive Event where
  | write (rx : List Nat)
  | read
  | set_byte (index value : Nat)
  | swap (buffer : Nat)

/-- The state after one event -/
def step (gen : GenTabs) (s : State) : Event → State
  | Event.write rx => receive_bytes gen s rx
  | Event.read => (handle_request s).1
  | Event.set_byte index value => wiimote_set_byte s index value
  | Event.swap buffer => (wiimote_swap_buffers s buffer).1

/-- The state after a sequence of events -/
def run (gen : GenTabs) (s : State) (evs : List Event) : State :=
  evs.foldl (step gen) s

/-- A transport event that is not a read request answered from register `0x00`: a write
event, or a read request while another register is addressed -/
def Event.bus_not_report (s : State) : Event → Bool
  | Event.write _ => true
  | Event.read => s.state != 0x00
  | Event.set_byte _ _ => false
  | Event.swap _ => false

/-- Every event of the sequence, taken in the state it meets, is a transport event other than
a read request answered from register `0x00` -/
def no_report_read (gen : GenTabs) : State → List Event → Bool
  | _, [] => true
  | s, e :: es => e.bus_not_report s && no_report_read gen (step gen s e) es

/-- The bytes of the slice `[base, base + n)` of the register file as `send_data` puts them
on the wire: through `encrypt_byte` when the cipher is on, unchanged otherwise -/
def wire_slice (s : State) (base n : Nat) : List Nat :=
  (List.range n).map fun i =>
    if s.wiimote_registers 0xF0 = 0xAA ∧ s.crypt_setup_done ≠ 0 then
      encrypt_byte s.wm_ft s.wm_sb (base + i) (s.wiimote_registers (base + i))
    else s.wiimote_registers (base + i)

/-- The six bytes of report buffer `id` as `send_data` puts them on the wire -/
def wire_report (s : State) (id : Nat) : List Nat :=
  (List.range 6).map fun i =>
    if s.wiimote_registers 0xF0 = 0xAA ∧ s.crypt_setup_done ≠ 0 then
      encrypt_byte s.wm_ft s.wm_sb i (s.bufs id i)
    else s.bufs id i

/-- The response to the read at `r` that closes the sequence: read request (with `r`
addressed), `a` addressed, read request, `r` addressed, read request -/
def read_after_interleave (gen : GenTabs) (s : State) (r a : Nat) : List Nat :=
  let s1 := (handle_request s).1
  let s2 := receive_bytes gen s1 [a]
  let s3 := (handle_request s2).1
  let s4 := receive_bytes gen s3 [r]
  (handle_request s4).2

/-- Table generator returning all-zero tables -/
def gen_zero : GenTabs := fun _ _ => (fun _ => 0, fun _ => 0)

/-- The state after `wiimote_init`, with zeros in the memory behind the register file -/
def started : State := wiimote_init (boot (fun _ => 0))

/-- Table generator returning the feedback table `1, .., 1` and the substitution box
`0, .., 0` -/
def gen_one : GenTabs := fun _ _ => (fun _ => 1, fun _ => 0)

/-- The state after `wiimote_init` and a key exchange by the host: `0xAA` written to `0xF0`,
then sixteen zero bytes written to `0x40 .. 0x4F` in three write events -/
def keyed : State :=
  run gen_one started
    [Event.write [0xF0, 0xAA], Event.write [0x40, 0, 0, 0, 0, 0, 0],
     Event.write [0x46, 0, 0, 0, 0, 0, 0], Event.write [0x4C, 0, 0, 0, 0]]

/-- What neither a write event nor a read of a register other than `0x00` touches in `t`,
compared with `s`: the report buffers, the active buffer, the callbacks and the log of
streaming calls -/
def exchange_kept (s t : State) : Prop :=
  t.bufs = s.bufs ∧ t.curbuf = s.curbuf ∧ t.wiimote_stream = s.wiimote_stream ∧
    t.wiimote_receive = s.wiimote_receive ∧ t.streamed = s.streamed

/-- The state after `wiimote_init` in an application that has registered a streaming
callback (it always hands back buffer `7`) and filled buffer `1` with `1, 2, 3, 4, 5, 6` -/
def streaming : State :=
  { started with
    wiimote_stream := some (fun _ m => (7, m)),
    bufs := fun id i => if id = 1 then (if i < 6 then i + 1 else 0) else started.bufs id i }

/-- What the store loop of `receive_bytes` and the write notification leave alone in `t`,
compared with `s`: the addressed register, the cipher tables, seed and key, and the log of
table generator calls -/
def tables_kept (s t : State) : Prop :=
  t.state = s.state ∧ t.wm_ft = s.wm_ft ∧ t.wm_sb = s.wm_sb ∧ t.wm_rand = s.wm_rand ∧
    t.wm_key = s.wm_key ∧ t.gentabs_calls = s.gentabs_calls

/-- The store loop of `receive_bytes` run over the data bytes of an event with base address
`addr`, from the state `s` -/
def receive_loop (addr : Nat) (s : State) (data : List Nat) : RecvLoop :=
  (data.map (· % 256)).foldl (receive_byte addr)
    { st := s, curr := addr, crypt_keys_received := 0 }

/-- The register file after start-up as the specification lists it: the identification
block at `0xFA .. 0xFF`, the calibration block with its two checksum bytes at `0x20 .. 0x2F`
and again at `0x30 .. 0x3F`, `0x55` in the cipher control register `0xF0`, and `0xFF` in every
other register -/
def init_registers (j : Nat) : Nat :=
  if 0xFA ≤ j ∧ j ≤ 0xFF then [0x00, 0x00, 0xA4, 0x20, 0x67, 0x67].getD (j - 0xFA) 0
  else if 0x20 ≤ j ∧ j ≤ 0x2F then
    [0x7F, 0x7F, 0x7F, 0x00, 0xB4, 0xB4, 0xB4, 0x00, 0xFF, 0x00, 0x7F, 0xFF, 0x00, 0x7F,
      0xEA, 0x3F].getD (j - 0x20) 0
  else if 0x30 ≤ j ∧ j ≤ 0x3F then
    [0x7F, 0x7F, 0x7F, 0x00, 0xB4, 0xB4, 0xB4, 0x00, 0xFF, 0x00, 0x7F, 0xFF, 0x00, 0x7F,
      0xEA, 0x3F].getD (j - 0x30) 0
  else if j = 0xF0 then 0x55
  else 0xFF

/-- What no write event, `wiimote_set_byte` or `wiimote_swap_buffers` touches in `t`,
compared with `s`: the read cursor `last_state`, `offset` -/
def cursor_kept (s t : State) : Prop :=
  t.last_state = s.last_state ∧ t.offset = s.offset

/-- The read cursor after `k` read requests answered from register `r`: away from `r` when
`k = 0`; at `r`, with the offset advanced `k - 1` times by eight in a byte, when `0 < k` -/
def cursor_after (r k : Nat) (t : State) : Prop :=
  (k = 0 → t.last_state ≠ r) ∧ (0 < k → t.last_state = r ∧ t.offset = (8 * (k - 1)) % 256)

/-- An event that is not a read request answered from a cursor-tracked register other than
`r` -/
def Event.tracks_only (r : Nat) (s : State) : Event → Bool
  | Event.read => s.state == r || s.state == 0x00 || s.state == 0xFA
  | _ => true

/-- Every read request of the sequence, in the state it meets, is answered from `r`, `0x00`
or `0xFA` -/
def tracks_only (gen : GenTabs) (r : Nat) : State → List Event → Bool
  | _, [] => true
  | s, e :: es => e.tracks_only r s && tracks_only gen r (step gen s e) es

/-- Whether the event is a read request answered from `r` -/
def Event.reads_from (r : Nat) (s : State) : Event → Bool
  | Event.read => s.state == r
  | _ => false

/-- The number of read requests of the sequence answered from `r` -/
def reads_from (gen : GenTabs) (r : Nat) : State → List Event → Nat
  | _, [] => 0
  | s, e :: es => (if e.reads_from r s then 1 else 0) + reads_from gen r (step gen s e) es

/-- The calibration reads find the shared offset at zero: while `last_state` is `0x20` or
`0x30`, `offset` is `0` -/
def cal_cursor_ok (t : State) : Prop :=
  (t.last_state = 0x20 ∨ t.last_state = 0x30) → t.offset = 0

/-- Sum of the fourteen payload bytes `p[0..13]` of a calibration block -/
def payload_sum (p : Mem) : Nat := (List.range 14).foldl (fun c i => c + p i) 0

/-! ## Cipher -/

/-- C1: for byte-valued tables and a byte `x`, the write-side transform `decrypt_byte` of
`receive_bytes` and the read-side transform `encrypt_byte` of `send_data` are mutually
inverse at every register address `a` -/
theorem cipher_transforms_inverse (ft sb : Mem) (a x : Nat)
    (hft : ∀ i, i < 8 → ft i < 256) (hsb : ∀ i, i < 8 → sb i < 256) (hx : x < 256) :
    decrypt_byte ft sb a (encrypt_byte ft sb a x) = x ∧
      encrypt_byte ft sb a (decrypt_byte ft sb a x) = x := by
  have h8 : a % 8 < 8 := Nat.mod_lt _ (by decide)
  have hf := hft _ h8
  have hs := hsb _ h8
  unfold decrypt_byte encrypt_byte
  generalize ft (a % 8) = f at hf
  generalize sb (a % 8) = k at hs
  constructor
  · have h1 : ((x + 256 - f) % 256 ^^^ k) < 256 :=
      Nat.xor_lt_two_pow (n := 8) (Nat.mod_lt _ (by decide)) hs
    rw [Nat.mod_eq_of_lt h1, Nat.xor_cancel_right]
    omega
  · have h1 : (x ^^^ k) < 256 := Nat.xor_lt_two_pow (n := 8) hx hs
    have h2 : (((x ^^^ k) + f) % 256 + 256 - f) % 256 = x ^^^ k := by omega
    rw [h2, Nat.xor_cancel_right, Nat.mod_eq_of_lt hx]

/-- C1 at a concrete input: tables `7` and `0x5A`, register `0x23`, byte `200` -/
theorem cipher_transforms_inverse_witness :
    decrypt_byte (fun _ => 7) (fun _ => 0x5A) 0x23
        (encrypt_byte (fun _ => 7) (fun _ => 0x5A) 0x23 200) = 200 ∧
      encrypt_byte (fun _ => 7) (fun _ => 0x5A) 0x23
        (decrypt_byte (fun _ => 7) (fun _ => 0x5A) 0x23 200) = 200 :=
  cipher_transforms_inverse (fun _ => 7) (fun _ => 0x5A) 0x23 200
    (fun _ _ => (by decide : 7 < 256)) (fun _ _ => (by decide : 0x5A < 256)) (by decide)

theorem cipher_on_iff (s : State) :
    s.cipher_on = true ↔ s.wiimote_registers 0xF0 = 0xAA ∧ s.crypt_setup_done ≠ 0 := by
  simp [State.cipher_on]

theorem cipher_on_false_iff (s : State) :
    s.cipher_on = false ↔ s.wiimote_registers 0xF0 ≠ 0xAA ∨ s.crypt_setup_done = 0 := by
  rw [← Bool.not_eq_true, cipher_on_iff]
  constructor
  · intro h
    by_cases h1 : s.wiimote_registers 0xF0 = 0xAA
    · right
      by_contra h2
      exact h ⟨h1, h2⟩
    · left
      exact h1
  · rintro (h | h) ⟨h1, h2⟩
    · exact h h1
    · exact h2 h

/-- C2: when register `0xF0` is not `0xAA` or `crypt_setup_done` is clear, `send_data` hands
to the wire exactly the `size` bytes at `data`, and an iteration of the `receive_bytes` loop
entered in that condition stores its data byte unchanged at the cursor, for any tables; the
transforms are what is sent and stored when `0xF0` holds `0xAA` and the flag is set (and the
byte is not the disabling `0x55` of an event based at `0xF0`) -/
theorem cipher_off_identity (s : State) (data : Ptr) (size addr : Nat)
    (l : RecvLoop) (base d : Nat)
    (hs : s.wiimote_registers 0xF0 ≠ 0xAA ∨ s.crypt_setup_done = 0)
    (hl : l.st.wiimote_registers 0xF0 ≠ 0xAA ∨ l.st.crypt_setup_done = 0) :
    send_data s data size addr = (List.range size).map (fun i => s.load data i) ∧
    (receive_byte base l d).st.wiimote_registers = store l.st.wiimote_registers l.curr d ∧
    (∀ t : State, t.wiimote_registers 0xF0 = 0xAA → t.crypt_setup_done ≠ 0 →
      send_data t data size addr =
        (List.range size).map
          (fun i => encrypt_byte t.wm_ft t.wm_sb (addr + i) (t.load data i))) ∧
    (∀ m : RecvLoop, m.st.wiimote_registers 0xF0 = 0xAA → m.st.crypt_setup_done ≠ 0 →
      ¬ (base = 0xF0 ∧ d = 0x55) →
      (receive_byte base m d).st.wiimote_registers =
        store m.st.wiimote_registers m.curr (decrypt_byte m.st.wm_ft m.st.wm_sb m.curr d)) := by
  refine ⟨?_, ?_, ?_, ?_⟩
  · have h := (cipher_on_false_iff s).2 hs
    simp [send_data, h]
  · have h := (cipher_on_false_iff l.st).2 hl
    by_cases hd : base = 0xF0 ∧ d = 0x55
    · simp [receive_byte, hd, State.cipher_on]
    · simp [receive_byte, hd, h]
  · intro t h1 h2
    have h := (cipher_on_iff t).2 ⟨h1, h2⟩
    simp [send_data, h]
  · intro m h1 h2 hd
    have h := (cipher_on_iff m.st).2 ⟨h1, h2⟩
    simp [receive_byte, hd, h]

/-- C2 at a concrete input: the boot state (flag clear), six bytes of `outbuf`, and the byte
`0x41` received for register `0x10` -/
theorem cipher_off_identity_witness :
    send_data (boot (fun _ => 0)) (Ptr.buf 0) 6 0 =
      (List.range 6).map (fun i => (boot (fun _ => 0)).load (Ptr.buf 0) i) ∧
    (receive_byte 0x10 ⟨boot (fun _ => 0), 0x10, 0⟩ 0x41).st.wiimote_registers 0x10 = 0x41 := by
  have h := cipher_off_identity (boot (fun _ => 0)) (Ptr.buf 0) 6 0
    ⟨boot (fun _ => 0), 0x10, 0⟩ 0x10 0x41 (Or.inr rfl) (Or.inr rfl)
  refine ⟨h.1, ?_⟩
  rw [h.2.1]
  simp [store]

/-! ## Report encoder -/

theorem and_two_cases (z : Nat) : z &&& 2 = 0 ∨ z &&& 2 = 2 := by
  have h : z &&& 2 ≤ 2 := Nat.and_le_right
  have h1 : z &&& 2 ≠ 1 := by
    intro h1
    have := congrArg (fun n => n.testBit 0) h1
    simp at this
  omega

theorem byte4_value (a b c d e f : Bool) (z : Nat) :
    ((((b2n a <<< 7) ||| (b2n b <<< 6) ||| (b2n c <<< 5) ||| (b2n d <<< 4) |||
      (b2n e <<< 3) ||| (b2n f <<< 2) ||| (z &&& 2)) % 256) ^^^ 0x3F) % 256 =
    (((b2n a <<< 7) ||| (b2n b <<< 6) ||| (b2n c <<< 5) ||| (b2n d <<< 4) |||
      (b2n e <<< 3) ||| (b2n f <<< 2) ||| (z &&& 2)) ^^^ 0x3F) % 256 := by
  rcases and_two_cases z with h | h <;> rw [h] <;> revert a b c d e f <;> decide

theorem byte5_value (a b c d e f g h : Bool) :
    compl32 (((b2n a <<< 7) ||| (b2n b <<< 6) ||| (b2n c <<< 5) ||| (b2n d <<< 4) |||
      (b2n e <<< 3) ||| (b2n f <<< 2) ||| (b2n g <<< 1) ||| b2n h) % 256) % 256 =
    (0xFF - ((b2n a <<< 7) ||| (b2n b <<< 6) ||| (b2n c <<< 5) ||| (b2n d <<< 4) |||
      (b2n e <<< 3) ||| (b2n f <<< 2) ||| (b2n g <<< 1) ||| b2n h)) % 256 := by
  revert a b c d e f g h
  decide

/-- The six cells of `buffer` after `wiimote_write_buffer`, read off the eight stores -/
theorem report_after_write (s : State) (buffer : Nat) :
    (wiimote_write_buffer s buffer).report buffer =
      [ ((s.accelZ &&& 0xC0) ||| (s.sx >>> 2)) % 256,
        (((s.accelZ &&& 0x30) <<< 2) ||| (s.sy >>> 2)) % 256,
        (((s.accelZ &&& 0x08) <<< 4) ||| (s.accelX >>> 1)) % 256,
        (((s.accelZ &&& 0x04) <<< 5) ||| (s.accelY >>> 1)) % 256,
        ((((b2n (s.buttonStates 5) <<< 7) ||| (b2n (s.buttonStates 7) <<< 6) |||
          (b2n s.nunchukReady <<< 5) ||| (b2n (s.buttonStates 8) <<< 4) |||
          (b2n (s.buttonStates 9) <<< 3) ||| (b2n (s.buttonStates 10) <<< 2) |||
          (s.accelZ &&& 0x02)) % 256) ^^^ 0x3F) % 256,
        compl32 (((b2n (s.buttonStates 12) <<< 7) ||| (b2n (s.buttonStates 1) <<< 6) |||
          (b2n (s.buttonStates 3) <<< 5) ||| (b2n (s.buttonStates 0) <<< 4) |||
          (b2n (s.buttonStates 2) <<< 3) ||| (b2n (s.buttonStates 11) <<< 2) |||
          (b2n (s.buttonStates 4) <<< 1) ||| b2n (s.buttonStates 6)) % 256) % 256 ] := by
  simp [wiimote_write_buffer, State.report, storeBuf, List.range, List.range.loop]

/-- C3: the six bytes `wiimote_write_buffer` leaves in `buffer` are the stated bit layout of
`sx`, `sy`, `accelX`, `accelY`, `accelZ`, the thirteen `buttonStates` and `nunchukReady`, each
truncated to eight bits, and any state with the same inputs gives the same six bytes -/
theorem write_buffer_layout (s : State) (buffer : Nat) :
    (wiimote_write_buffer s buffer).report buffer =
      [ ((s.accelZ &&& 0xC0) ||| (s.sx >>> 2)) % 256,
        (((s.accelZ &&& 0x30) <<< 2) ||| (s.sy >>> 2)) % 256,
        (((s.accelZ &&& 0x08) <<< 4) ||| (s.accelX >>> 1)) % 256,
        (((s.accelZ &&& 0x04) <<< 5) ||| (s.accelY >>> 1)) % 256,
        (((b2n (s.buttonStates 5) <<< 7) ||| (b2n (s.buttonStates 7) <<< 6) |||
          (b2n s.nunchukReady <<< 5) ||| (b2n (s.buttonStates 8) <<< 4) |||
          (b2n (s.buttonStates 9) <<< 3) ||| (b2n (s.buttonStates 10) <<< 2) |||
          (s.accelZ &&& 0x02)) ^^^ 0x3F) % 256,
        (0xFF - ((b2n (s.buttonStates 12) <<< 7) ||| (b2n (s.buttonStates 1) <<< 6) |||
          (b2n (s.buttonStates 3) <<< 5) ||| (b2n (s.buttonStates 0) <<< 4) |||
          (b2n (s.buttonStates 2) <<< 3) ||| (b2n (s.buttonStates 11) <<< 2) |||
          (b2n (s.buttonStates 4) <<< 1) ||| b2n (s.buttonStates 6))) % 256 ] ∧
    ∀ (t : State) (b : Nat), t.sx = s.sx → t.sy = s.sy → t.accelX = s.accelX →
      t.accelY = s.accelY → t.accelZ = s.accelZ → t.nunchukReady = s.nunchukReady →
      (∀ i, i < 13 → t.buttonStates i = s.buttonStates i) →
      (wiimote_write_buffer t b).report b = (wiimote_write_buffer s buffer).report buffer := by
  constructor
  · rw [report_after_write, byte4_value, byte5_value]
  · intro t b h1 h2 h3 h4 h5 h6 h7
    rw [report_after_write, report_after_write, h1, h2, h3, h4, h5, h6,
      h7 0 (by decide), h7 1 (by decide), h7 2 (by decide), h7 3 (by decide),
      h7 4 (by decide), h7 5 (by decide), h7 6 (by decide), h7 7 (by decide),
      h7 8 (by decide), h7 9 (by decide), h7 10 (by decide), h7 11 (by decide),
      h7 12 (by decide)]

/-- C4: the static initialisers give the all-neutral input (`sx = sy = 0x7F`, the three
accelerometer bytes `0x80`, every button released, `nunchukReady` false), and from any state
with that input `wiimote_write_buffer` yields the report `9F 1F 40 40 3F FF` -/
theorem neutral_report (after : Mem) :
    ((boot after).sx = 0x7F ∧ (boot after).sy = 0x7F ∧ (boot after).accelX = 0x80 ∧
      (boot after).accelY = 0x80 ∧ (boot after).accelZ = 0x80 ∧
      (∀ i, (boot after).buttonStates i = false) ∧ (boot after).nunchukReady = false) ∧
    (∀ buffer : Nat, (wiimote_write_buffer (boot after) buffer).report buffer =
      [0x9F, 0x1F, 0x40, 0x40, 0x3F, 0xFF]) ∧
    ∀ (s : State) (buffer : Nat), s.sx = 0x7F → s.sy = 0x7F → s.accelX = 0x80 →
      s.accelY = 0x80 → s.accelZ = 0x80 → s.nunchukReady = false →
      (∀ i, i < 13 → s.buttonStates i = false) →
      (wiimote_write_buffer s buffer).report buffer = [0x9F, 0x1F, 0x40, 0x40, 0x3F, 0xFF] := by
  have key : ∀ (s : State) (buffer : Nat), s.sx = 0x7F → s.sy = 0x7F → s.accelX = 0x80 →
      s.accelY = 0x80 → s.accelZ = 0x80 → s.nunchukReady = false →
      (∀ i, i < 13 → s.buttonStates i = false) →
      (wiimote_write_buffer s buffer).report buffer =
        [0x9F, 0x1F, 0x40, 0x40, 0x3F, 0xFF] := by
    intro s buffer h1 h2 h3 h4 h5 h6 h7
    rw [report_after_write, h1, h2, h3, h4, h5, h6,
      h7 0 (by decide), h7 1 (by decide), h7 2 (by decide), h7 3 (by decide),
      h7 4 (by decide), h7 5 (by decide), h7 6 (by decide), h7 7 (by decide),
      h7 8 (by decide), h7 9 (by decide), h7 10 (by decide), h7 11 (by decide),
      h7 12 (by decide)]
    decide
  refine ⟨⟨rfl, rfl, rfl, rfl, rfl, fun _ => rfl, rfl⟩, ?_, key⟩
  intro buffer
  exact key (boot after) buffer rfl rfl rfl rfl rfl rfl (fun _ _ => rfl)

/-- C4 evaluated: the report written into `outbuf` from the boot state -/
theorem neutral_report_witness :
    (wiimote_write_buffer (boot (fun _ => 0)) 0).report 0 =
      [0x9F, 0x1F, 0x40, 0x40, 0x3F, 0xFF] :=
  (neutral_report (fun _ => 0)).2.1 0

/-! ## Calibration data -/

/-- C5 (defect in `set_caldata`): the checksum loop sums the global `calbuf`, not the block
passed in.  After `wiimote_init`, `set_caldata` on a block of sixteen zero bytes stores
`0xEA`, `0x3F` at `0x2E`, `0x2F` (and at `0x3E`, `0x3F`), the checksum of the default payload,
where the payload passed in has sum `0` and checksum bytes `0x55`, `0xAA`. -/
theorem set_caldata_checksum_of_calbuf :
    payload_sum (fun _ => 0) = 0 ∧
    (set_caldata (wiimote_init (boot (fun _ => 0))) (fun _ => 0)).1.wiimote_registers 0x2E
      = 0xEA ∧
    (set_caldata (wiimote_init (boot (fun _ => 0))) (fun _ => 0)).1.wiimote_registers 0x2F
      = 0x3F ∧
    (set_caldata (wiimote_init (boot (fun _ => 0))) (fun _ => 0)).1.wiimote_registers 0x3E
      = 0xEA ∧
    (set_caldata (wiimote_init (boot (fun _ => 0))) (fun _ => 0)).1.wiimote_registers 0x3F
      = 0x3F ∧
    (List.range' 0x20 14).map
      (set_caldata (wiimote_init (boot (fun _ => 0))) (fun _ => 0)).1.wiimote_registers
      = List.replicate 14 0 := by
  decide

/-! ## Read dispatcher -/

theorem encrypt_byte_addr (ft sb : Mem) (base i p : Nat) :
    encrypt_byte ft sb (base % 256 + i) p = encrypt_byte ft sb (base + i) p := by
  have h : (base % 256 + i) % 8 = (base + i) % 8 := by omega
  simp [encrypt_byte, h]

theorem send_data_reg (s : State) (base n : Nat) :
    send_data s (Ptr.reg base) n (base % 256) = wire_slice s base n := by
  by_cases h : s.cipher_on = true
  · have h2 := (cipher_on_iff s).1 h
    simp [send_data, wire_slice, h, h2, State.load, encrypt_byte_addr]
  · have h1 : s.cipher_on = false := by simpa using h
    have h2 : ¬ (s.wiimote_registers 0xF0 = 0xAA ∧ s.crypt_setup_done ≠ 0) := by
      rw [← cipher_on_iff]; exact h
    simp only [send_data, wire_slice, h1, State.load, if_neg h2]
    simp

theorem send_data_buf (s : State) (id : Nat) :
    send_data s (Ptr.buf id) 6 0 = wire_report s id := by
  by_cases h : s.cipher_on = true
  · have h2 := (cipher_on_iff s).1 h
    simp [send_data, wire_report, h, h2, State.load]
  · have h1 : s.cipher_on = false := by simpa using h
    have h2 : ¬ (s.wiimote_registers 0xF0 = 0xAA ∧ s.crypt_setup_done ≠ 0) := by
      rw [← cipher_on_iff]; exact h
    simp only [send_data, wire_report, h1, State.load, if_neg h2]
    simp

theorem wire_slice_congr (s t : State) (base n : Nat)
    (h1 : t.wiimote_registers = s.wiimote_registers)
    (h2 : t.crypt_setup_done = s.crypt_setup_done)
    (h3 : t.wm_ft = s.wm_ft) (h4 : t.wm_sb = s.wm_sb) :
    wire_slice t base n = wire_slice s base n := by
  simp [wire_slice, h1, h2, h3, h4]

/-- A read request with a calibration register addressed: cursor update, then the slice -/
theorem handle_request_cal (s : State) (h : s.state = 0x20 ∨ s.state = 0x30) :
    handle_request s =
      (cursor_cal s, wire_slice s (s.state + (cursor_cal s).offset) 8) := by
  have h0 : s.state ≠ 0x00 := by rcases h with h | h <;> simp [h]
  have hfa : s.state ≠ 0xFA := by rcases h with h | h <;> simp [h]
  have hst : (cursor_cal s).state = s.state := by
    unfold cursor_cal; split <;> rfl
  simp only [handle_request, handle_request_select, if_neg h0, if_neg hfa, if_pos h, hst,
    send_data_reg]
  congr 1
  apply wire_slice_congr <;> (unfold cursor_cal; split <;> rfl)

/-- A read request with a register outside `0x00`, `0xFA`, `0x20`, `0x30` addressed -/
theorem handle_request_default (s : State) (h0 : s.state ≠ 0x00) (hfa : s.state ≠ 0xFA)
    (h2 : s.state ≠ 0x20) (h3 : s.state ≠ 0x30) :
    handle_request s =
      (cursor_default s, wire_slice s (s.state + (cursor_default s).offset) 8) := by
  have h : ¬ (s.state = 0x20 ∨ s.state = 0x30) := by simp [h2, h3]
  have hst : (cursor_default s).state = s.state := by
    unfold cursor_default; split <;> rfl
  simp only [handle_request, handle_request_select, if_neg h0, if_neg hfa, if_neg h, hst,
    send_data_reg]
  congr 1
  apply wire_slice_congr <;> (unfold cursor_default; split <;> rfl)

theorem cursor_cal_frame (t : State) :
    (cursor_cal t).state = t.state ∧
    (cursor_cal t).wiimote_registers = t.wiimote_registers ∧
    (cursor_cal t).crypt_setup_done = t.crypt_setup_done ∧
    (cursor_cal t).wm_ft = t.wm_ft ∧ (cursor_cal t).wm_sb = t.wm_sb ∧
    (cursor_cal t).bufs = t.bufs ∧ (cursor_cal t).curbuf = t.curbuf ∧
    (cursor_cal t).wiimote_stream = t.wiimote_stream ∧
    (cursor_cal t).streamed = t.streamed := by
  unfold cursor_cal
  split <;> simp

theorem cursor_cal_fresh (t : State) (h : t.last_state ≠ t.state) :
    (cursor_cal t).last_state = t.state ∧ (cursor_cal t).offset = 0 := by
  simp [cursor_cal, h]

theorem cursor_cal_repeat (t : State) (h : t.last_state = t.state) :
    (cursor_cal t).last_state = 0xFF ∧ (cursor_cal t).offset = (t.offset + 8) % 256 := by
  simp [cursor_cal, h]

/-- State reached by `k` consecutive reads of a calibration register `r`, starting with the
cursor elsewhere: the cursor sits at `r` with offset `0` after an odd number of reads and
away from `r` after an even number; registers and cipher state are those of the start -/
theorem reads_cal_inv (s : State) (r : Nat) (hr : r = 0x20 ∨ r = 0x30)
    (hst : s.state = r) (hls : s.last_state ≠ r) (k : Nat) :
    (reads k s).state = r ∧
    (reads k s).wiimote_registers = s.wiimote_registers ∧
    (reads k s).crypt_setup_done = s.crypt_setup_done ∧
    (reads k s).wm_ft = s.wm_ft ∧ (reads k s).wm_sb = s.wm_sb ∧
    (k % 2 = 0 → (reads k s).last_state ≠ r) ∧
    (k % 2 = 1 → (reads k s).last_state = r ∧ (reads k s).offset = 0) := by
  induction k with
  | zero => exact ⟨hst, rfl, rfl, rfl, rfl, fun _ => hls, fun h => absurd h (by decide)⟩
  | succ k ih =>
    obtain ⟨i1, i2, i3, i4, i5, i6, i7⟩ := ih
    have hc : (reads k s).state = 0x20 ∨ (reads k s).state = 0x30 := by rw [i1]; exact hr
    have hh : reads (k + 1) s = cursor_cal (reads k s) := by
      show (handle_request (reads k s)).1 = _
      rw [handle_request_cal _ hc]
    obtain ⟨f1, f2, f3, f4, f5, -, -, -, -⟩ := cursor_cal_frame (reads k s)
    rw [hh]
    refine ⟨f1.trans i1, f2.trans i2, f3.trans i3, f4.trans i4, f5.trans i5, ?_, ?_⟩
    · intro hk
      have hk1 : k % 2 = 1 := by omega
      have hl := (i7 hk1).1
      have := (cursor_cal_repeat (reads k s) (hl.trans i1.symm)).1
      rw [this]
      rcases hr with h | h <;> simp [h]
    · intro hk
      have hk0 : k % 2 = 0 := by omega
      have hl := i6 hk0
      have := cursor_cal_fresh (reads k s) (by rw [i1]; exact hl)
      rw [this.1, this.2, i1]
      exact ⟨rfl, rfl⟩

/-- The response to the read that follows `k` consecutive reads of calibration register `r` -/
theorem read_cal_nth (s : State) (r k : Nat) (hr : r = 0x20 ∨ r = 0x30)
    (hst : s.state = r) (hls : s.last_state ≠ r) :
    handle_request_select (reads k s) =
      (cursor_cal (reads k s),
        { data := Ptr.reg (r + 8 * (k % 2)), size := 8, addr := (r + 8 * (k % 2)) % 256 }) ∧
    (handle_request (reads k s)).2 = wire_slice s (r + 8 * (k % 2)) 8 := by
  obtain ⟨i1, i2, i3, i4, i5, i6, i7⟩ := reads_cal_inv s r hr hst hls k
  have hc : (reads k s).state = 0x20 ∨ (reads k s).state = 0x30 := by rw [i1]; exact hr
  have hoff : (cursor_cal (reads k s)).offset = 8 * (k % 2) := by
    rcases Nat.mod_two_eq_zero_or_one k with hk | hk
    · rw [(cursor_cal_fresh _ (by rw [i1]; exact i6 hk)).2, hk]
    · have h7 := i7 hk
      rw [(cursor_cal_repeat _ (h7.1.trans i1.symm)).2, h7.2, hk]
  have h0 : (reads k s).state ≠ 0x00 := by rcases hc with h | h <;> simp [h]
  have hfa : (reads k s).state ≠ 0xFA := by rcases hc with h | h <;> simp [h]
  constructor
  · have h1 : handle_request_select (reads k s) =
        (cursor_cal (reads k s),
          { data := Ptr.reg ((cursor_cal (reads k s)).state + (cursor_cal (reads k s)).offset),
            size := 8,
            addr := ((cursor_cal (reads k s)).state + (cursor_cal (reads k s)).offset) % 256 }) := by
      simp only [handle_request_select, if_neg h0, if_neg hfa, if_pos hc]
    rw [h1, (cursor_cal_frame (reads k s)).1, hoff, i1]
  · rw [handle_request_cal _ hc, hoff, i1]
    exact wire_slice_congr s (reads k s) _ 8 i2 i3 i4 i5

/-- C6: with calibration register `r` (`0x20` or `0x30`) addressed and the cursor not at `r`,
the read request that follows `k` consecutive ones selects registers
`[r + 8 (k mod 2), r + 8 (k mod 2) + 8)` and answers with them through the read-side cipher;
the first three answers are the slices at `r`, `r + 8`, `r` -/
theorem calibration_reads_alternate (s : State) (r : Nat) (hr : r = 0x20 ∨ r = 0x30)
    (hst : s.state = r) (hls : s.last_state ≠ r) :
    (∀ k : Nat,
      (handle_request_select (reads k s)).2.data = Ptr.reg (r + 8 * (k % 2)) ∧
      (handle_request (reads k s)).2 = wire_slice s (r + 8 * (k % 2)) 8) ∧
    (handle_request s).2 = wire_slice s r 8 ∧
    (handle_request (handle_request s).1).2 = wire_slice s (r + 8) 8 ∧
    (handle_request (handle_request (handle_request s).1).1).2 = wire_slice s r 8 := by
  refine ⟨fun k => ?_, ?_, ?_, ?_⟩
  · have h := read_cal_nth s r k hr hst hls
    rw [h.1]
    exact ⟨rfl, h.2⟩
  · exact (read_cal_nth s r 0 hr hst hls).2
  · exact (read_cal_nth s r 1 hr hst hls).2
  · exact (read_cal_nth s r 2 hr hst hls).2

/-- C6 after `wiimote_init` with `0x20` addressed: the three answers are the first half of
the calibration block, the second half, and the first half again -/
theorem calibration_reads_alternate_witness :
    (handle_request (receive_bytes (fun _ _ => (fun _ => 0, fun _ => 0))
      (wiimote_init (boot (fun _ => 0))) [0x20])).2
      = [0x7F, 0x7F, 0x7F, 0x00, 0xB4, 0xB4, 0xB4, 0x00] ∧
    (handle_request (handle_request (receive_bytes (fun _ _ => (fun _ => 0, fun _ => 0))
      (wiimote_init (boot (fun _ => 0))) [0x20])).1).2
      = [0xFF, 0x00, 0x7F, 0xFF, 0x00, 0x7F, 0xEA, 0x3F] ∧
    (handle_request (handle_request (handle_request (receive_bytes
      (fun _ _ => (fun _ => 0, fun _ => 0)) (wiimote_init (boot (fun _ => 0))) [0x20])).1).1).2
      = [0x7F, 0x7F, 0x7F, 0x00, 0xB4, 0xB4, 0xB4, 0x00] := by
  have h := calibration_reads_alternate
    (receive_bytes (fun _ _ => (fun _ => 0, fun _ => 0)) (wiimote_init (boot (fun _ => 0)))
      [0x20]) 0x20 (Or.inl rfl) (by decide) (by decide)
  rw [h.2.1, h.2.2.1, h.2.2.2]
  decide

theorem cursor_default_frame (t : State) :
    (cursor_default t).state = t.state ∧
    (cursor_default t).wiimote_registers = t.wiimote_registers ∧
    (cursor_default t).crypt_setup_done = t.crypt_setup_done ∧
    (cursor_default t).wm_ft = t.wm_ft ∧ (cursor_default t).wm_sb = t.wm_sb ∧
    (cursor_default t).bufs = t.bufs ∧ (cursor_default t).curbuf = t.curbuf ∧
    (cursor_default t).wiimote_stream = t.wiimote_stream ∧
    (cursor_default t).streamed = t.streamed := by
  unfold cursor_default
  split <;> simp

theorem cursor_default_last (t : State) : (cursor_default t).last_state = t.state := by
  unfold cursor_default
  split
  · next h => exact h
  · rfl

theorem stream_step_frame (t : State) :
    (stream_step t).state = t.state ∧
    (stream_step t).wiimote_registers = t.wiimote_registers ∧
    (stream_step t).crypt_setup_done = t.crypt_setup_done ∧
    (stream_step t).wm_ft = t.wm_ft ∧ (stream_step t).wm_sb = t.wm_sb ∧
    (stream_step t).last_state = t.last_state ∧ (stream_step t).offset = t.offset := by
  unfold stream_step
  split <;> simp

/-- The state a read request leaves, by the addressed register -/
theorem handle_request_state (s : State) :
    (handle_request s).1 =
      if s.state = 0x00 then stream_step s
      else if s.state = 0xFA then s
      else if s.state = 0x20 ∨ s.state = 0x30 then cursor_cal s
      else cursor_default s := by
  unfold handle_request handle_request_select
  by_cases h0 : s.state = 0x00
  · simp [h0]
  · by_cases hfa : s.state = 0xFA
    · simp [hfa]
    · by_cases hc : s.state = 0x20 ∨ s.state = 0x30
      · simp only [if_neg h0, if_neg hfa, if_pos hc]
      · simp only [if_neg h0, if_neg hfa, if_neg hc]

/-- A read request changes neither the addressed register, the register file nor the cipher
state -/
theorem handle_request_frame (s : State) :
    (handle_request s).1.state = s.state ∧
    (handle_request s).1.wiimote_registers = s.wiimote_registers ∧
    (handle_request s).1.crypt_setup_done = s.crypt_setup_done ∧
    (handle_request s).1.wm_ft = s.wm_ft ∧ (handle_request s).1.wm_sb = s.wm_sb := by
  rw [handle_request_state]
  split
  · obtain ⟨h1, h2, h3, h4, h5, -, -⟩ := stream_step_frame s
    exact ⟨h1, h2, h3, h4, h5⟩
  · split
    · exact ⟨rfl, rfl, rfl, rfl, rfl⟩
    · split
      · obtain ⟨h1, h2, h3, h4, h5, -⟩ := cursor_cal_frame s
        exact ⟨h1, h2, h3, h4, h5⟩
      · obtain ⟨h1, h2, h3, h4, h5, -⟩ := cursor_default_frame s
        exact ⟨h1, h2, h3, h4, h5⟩

/-- A write event of a single byte `b` records `b` as the addressed register; registers,
cipher state, cursor, report buffers and callbacks stay as they are -/
theorem receive_single_frame (gen : GenTabs) (s : State) (b : Nat) :
    (receive_bytes gen s [b]).state = b % 256 ∧
    (receive_bytes gen s [b]).wiimote_registers = s.wiimote_registers ∧
    (receive_bytes gen s [b]).crypt_setup_done = s.crypt_setup_done ∧
    (receive_bytes gen s [b]).wm_ft = s.wm_ft ∧ (receive_bytes gen s [b]).wm_sb = s.wm_sb ∧
    (receive_bytes gen s [b]).last_state = s.last_state ∧
    (receive_bytes gen s [b]).offset = s.offset ∧
    (receive_bytes gen s [b]).bufs = s.bufs ∧ (receive_bytes gen s [b]).curbuf = s.curbuf ∧
    (receive_bytes gen s [b]).wiimote_stream = s.wiimote_stream ∧
    (receive_bytes gen s [b]).gentabs_calls = s.gentabs_calls := by
  have h : receive_bytes gen s [b] =
      if b % 256 ≠ 0 then
        { s with state := b % 256, serial := s.serial ++ [b % 256] }
      else { s with state := b % 256 } := by
    simp [receive_bytes, receive_finish]
  rw [h]
  split <;> simp

/-- The closing read of `read_after_interleave`, from the cursor left by the interleaved
read -/
theorem read_after_interleave_eq (gen : GenTabs) (s : State) (r a : Nat)
    (hr : r = 0x20 ∨ r = 0x30) :
    read_after_interleave gen s r a =
      wire_slice s (r + (cursor_cal (receive_bytes gen
        (handle_request (receive_bytes gen (handle_request s).1 [a])).1 [r])).offset) 8 := by
  have hr256 : r % 256 = r := by rcases hr with h | h <;> simp [h]
  obtain ⟨a1, a2, a3, a4, a5⟩ := handle_request_frame s
  obtain ⟨b1, b2, b3, b4, b5, -⟩ := receive_single_frame gen (handle_request s).1 a
  obtain ⟨c1, c2, c3, c4, c5⟩ :=
    handle_request_frame (receive_bytes gen (handle_request s).1 [a])
  obtain ⟨d1, d2, d3, d4, d5, -⟩ := receive_single_frame gen
    (handle_request (receive_bytes gen (handle_request s).1 [a])).1 r
  rw [hr256] at d1
  have hc : (receive_bytes gen
      (handle_request (receive_bytes gen (handle_request s).1 [a])).1 [r]).state = 0x20 ∨
    (receive_bytes gen
      (handle_request (receive_bytes gen (handle_request s).1 [a])).1 [r]).state = 0x30 := by
    rw [d1]; exact hr
  show (handle_request _).2 = _
  rw [handle_request_cal _ hc, d1]
  exact wire_slice_congr s _ _ 8 (d2.trans (c2.trans (b2.trans a2)))
    (d3.trans (c3.trans (b3.trans a3))) (d4.trans (c4.trans (b4.trans a4)))
    (d5.trans (c5.trans (b5.trans a5)))

theorem handle_request_select_cal (s : State) (h : s.state = 0x20 ∨ s.state = 0x30) :
    handle_request_select s =
      (cursor_cal s,
        { data := Ptr.reg (s.state + (cursor_cal s).offset), size := 8,
          addr := (s.state + (cursor_cal s).offset) % 256 }) := by
  have h0 : s.state ≠ 0x00 := by rcases h with h | h <;> simp [h]
  have hfa : s.state ≠ 0xFA := by rcases h with h | h <;> simp [h]
  simp only [handle_request_select, if_neg h0, if_neg hfa, if_pos h,
    (cursor_cal_frame s).1]

/-- The cursor after the interleaved read at `a`, when `a` is a cursor-tracked register other
than `r`: it no longer sits at `r` -/
theorem interleaved_cursor_moves (t : State) (r : Nat) (hr : r = 0x20 ∨ r = 0x30)
    (h0 : t.state ≠ 0x00) (hfa : t.state ≠ 0xFA) (hne : t.state ≠ r) :
    (handle_request t).1.last_state ≠ r := by
  rw [handle_request_state, if_neg h0, if_neg hfa]
  split
  · by_cases hl : t.last_state = t.state
    · rw [(cursor_cal_repeat t hl).1]
      rcases hr with h | h <;> simp [h]
    · rw [(cursor_cal_fresh t hl).1]
      exact hne
  · rw [cursor_default_last]
    exact hne

/-- The cursor after the interleaved read at `0x00` or `0xFA`: untouched -/
theorem interleaved_cursor_kept (t : State) (h : t.state = 0x00 ∨ t.state = 0xFA) :
    (handle_request t).1.last_state = t.last_state ∧
    (handle_request t).1.offset = t.offset := by
  rw [handle_request_state]
  rcases h with h | h
  · rw [if_pos h]
    exact ⟨(stream_step_frame t).2.2.2.2.2.1, (stream_step_frame t).2.2.2.2.2.2⟩
  · have h0 : t.state ≠ 0x00 := by simp [h]
    rw [if_neg h0, if_pos h]
    exact ⟨rfl, rfl⟩

/-- C7, as the code has it: after a read at calibration register `r` (`0x20` or `0x30`) that
selected the first half, one read with another register `a` addressed makes the next read at
`r` return the first half again when `a` is neither `0x00` nor `0xFA`; a read at `0x00` or
`0xFA` leaves the cursor alone, and the next read at `r` returns the second half -/
theorem interleaved_read_resets (gen : GenTabs) (s : State) (r a : Nat)
    (hr : r = 0x20 ∨ r = 0x30) (ha : a < 256) (hst : s.state = r)
    (hfirst : (handle_request_select s).2.data = Ptr.reg r) :
    (handle_request s).2 = wire_slice s r 8 ∧
    (a ≠ r → a ≠ 0x00 → a ≠ 0xFA → read_after_interleave gen s r a = wire_slice s r 8) ∧
    (s.last_state ≠ r → a = 0x00 ∨ a = 0xFA →
      read_after_interleave gen s r a = wire_slice s (r + 8) 8) := by
  have hc : s.state = 0x20 ∨ s.state = 0x30 := by rw [hst]; exact hr
  have hr256 : r % 256 = r := by rcases hr with h | h <;> simp [h]
  have ha256 : a % 256 = a := Nat.mod_eq_of_lt ha
  have hoff : (cursor_cal s).offset = 0 := by
    rw [handle_request_select_cal s hc] at hfirst
    have h := Ptr.reg.inj hfirst
    omega
  have hs1 : (handle_request s).1 = cursor_cal s := by rw [handle_request_cal s hc]
  obtain ⟨b1, -, -, -, -, b6, b7, -⟩ := receive_single_frame gen (handle_request s).1 a
  rw [ha256] at b1
  obtain ⟨d1, -, -, -, -, d6, d7, -⟩ := receive_single_frame gen
    (handle_request (receive_bytes gen (handle_request s).1 [a])).1 r
  rw [hr256] at d1
  refine ⟨?_, ?_, ?_⟩
  · rw [handle_request_cal s hc, hoff, hst]
    rfl
  · intro hne h0 hfa
    rw [read_after_interleave_eq gen s r a hr]
    have hm := interleaved_cursor_moves (receive_bytes gen (handle_request s).1 [a]) r hr
      (by rw [b1]; exact h0) (by rw [b1]; exact hfa) (by rw [b1]; exact hne)
    rw [(cursor_cal_fresh _ (by rw [d6, d1]; exact hm)).2]
    rfl
  · intro hls h0fa
    rw [read_after_interleave_eq gen s r a hr]
    have hk := interleaved_cursor_kept (receive_bytes gen (handle_request s).1 [a])
      (by rw [b1]; exact h0fa)
    have hfresh := cursor_cal_fresh s (by rw [hst]; exact hls)
    have hl : (receive_bytes gen
        (handle_request (receive_bytes gen (handle_request s).1 [a])).1 [r]).last_state = r := by
      rw [d6, hk.1, b6, hs1, hfresh.1, hst]
    have ho : (receive_bytes gen
        (handle_request (receive_bytes gen (handle_request s).1 [a])).1 [r]).offset = 0 := by
      rw [d7, hk.2, b7, hs1, hfresh.2]
    rw [(cursor_cal_repeat _ (hl.trans d1.symm)).2, ho]

/-- C7 at a concrete input: after `wiimote_init`, reads at `0x20`, `0x40`, `0x20` -/
theorem interleaved_read_resets_witness :
    read_after_interleave gen_zero (receive_bytes gen_zero started [0x20]) 0x20 0x40
      = [0x7F, 0x7F, 0x7F, 0x00, 0xB4, 0xB4, 0xB4, 0x00] := by
  have h := interleaved_read_resets gen_zero (receive_bytes gen_zero started [0x20]) 0x20 0x40
    (Or.inl rfl) (by decide) (by decide) (by decide)
  rw [h.2.1 (by decide) (by decide) (by decide)]
  decide

/-- C7 fails for `a = 0x00`: after `wiimote_init`, the read at `0x20` returns the first half
of the calibration block, and after one read with `0x00` addressed the next read at `0x20`
returns the second half, not the first -/
theorem interleaved_report_read_keeps_alternation :
    (handle_request (receive_bytes gen_zero started [0x20])).2
      = [0x7F, 0x7F, 0x7F, 0x00, 0xB4, 0xB4, 0xB4, 0x00] ∧
    0x00 ≠ 0x20 ∧
    read_after_interleave gen_zero (receive_bytes gen_zero started [0x20]) 0x20 0x00
      = [0xFF, 0x00, 0x7F, 0xFF, 0x00, 0x7F, 0xEA, 0x3F] ∧
    read_after_interleave gen_zero (receive_bytes gen_zero started [0x20]) 0x20 0x00
      ≠ wire_slice (receive_bytes gen_zero started [0x20]) 0x20 8 := by
  decide

/-! ## Buffer exchange -/

theorem exchange_kept_refl (s : State) : exchange_kept s s := ⟨rfl, rfl, rfl, rfl, rfl⟩

theorem exchange_kept_trans {s t u : State} (h1 : exchange_kept s t) (h2 : exchange_kept t u) :
    exchange_kept s u :=
  ⟨h2.1.trans h1.1, h2.2.1.trans h1.2.1, h2.2.2.1.trans h1.2.2.1,
    h2.2.2.2.1.trans h1.2.2.2.1, h2.2.2.2.2.trans h1.2.2.2.2⟩

theorem receive_byte_kept (addr : Nat) (l : RecvLoop) (d : Nat) :
    exchange_kept l.st (receive_byte addr l d).st := by
  unfold receive_byte exchange_kept
  by_cases h1 : addr = 0xF0 ∧ d = 0x55
  · simp only [if_pos h1]
    split <;> exact ⟨rfl, rfl, rfl, rfl, rfl⟩
  · simp only [if_neg h1]
    split <;> exact ⟨rfl, rfl, rfl, rfl, rfl⟩

theorem receive_loop_kept (addr : Nat) (data : List Nat) :
    ∀ l : RecvLoop, exchange_kept l.st (data.foldl (receive_byte addr) l).st := by
  induction data with
  | nil => intro l; exact exchange_kept_refl _
  | cons d ds ih =>
    intro l
    exact exchange_kept_trans (receive_byte_kept addr l d) (ih (receive_byte addr l d))

theorem setup_encryption_kept (gen : GenTabs) (s : State) :
    exchange_kept s (setup_encryption gen s) := ⟨rfl, rfl, rfl, rfl, rfl⟩

theorem receive_finish_kept (gen : GenTabs) (s : State) (k : Nat) :
    exchange_kept s (receive_finish gen s k) := by
  unfold receive_finish
  by_cases h1 : s.state ≠ 0 <;> by_cases h2 : k ≠ 0
  · simp only [if_pos h1, if_pos h2]
    exact exchange_kept_trans ⟨rfl, rfl, rfl, rfl, rfl⟩ (setup_encryption_kept gen _)
  · simp only [if_pos h1, if_neg h2]
    exact ⟨rfl, rfl, rfl, rfl, rfl⟩
  · simp only [if_neg h1, if_pos h2]
    exact setup_encryption_kept gen _
  · simp only [if_neg h1, if_neg h2]
    exact exchange_kept_refl _

/-- A write event leaves the report buffers, the active buffer and the callbacks alone -/
theorem receive_bytes_kept (gen : GenTabs) (s : State) (rx : List Nat) :
    exchange_kept s (receive_bytes gen s rx) := by
  match rx with
  | [] => exact receive_finish_kept gen s 0
  | [b] =>
    exact exchange_kept_trans (t := { s with state := b % 256 }) ⟨rfl, rfl, rfl, rfl, rfl⟩
      (receive_finish_kept gen _ 0)
  | a :: d :: ds =>
    simp only [receive_bytes]
    refine exchange_kept_trans ?_ (receive_finish_kept gen _ _)
    have hl := receive_loop_kept (a % 256) ((d :: ds).map (· % 256))
      { st := s, curr := a % 256, crypt_keys_received := 0 }
    split
    · exact exchange_kept_trans hl ⟨rfl, rfl, rfl, rfl, rfl⟩
    · exact hl

/-- A read request with a register other than `0x00` addressed leaves the report buffers, the
active buffer and the callbacks alone, and calls no streaming callback -/
theorem handle_request_kept (s : State) (h0 : s.state ≠ 0x00) :
    exchange_kept s (handle_request s).1 := by
  rw [handle_request_state, if_neg h0]
  split
  · exact exchange_kept_refl s
  · split
    · unfold cursor_cal
      split <;> exact ⟨rfl, rfl, rfl, rfl, rfl⟩
    · unfold cursor_default
      split <;> exact ⟨rfl, rfl, rfl, rfl, rfl⟩

theorem run_kept (gen : GenTabs) (evs : List Event) :
    ∀ s : State, no_report_read gen s evs = true → exchange_kept s (run gen s evs) := by
  induction evs with
  | nil => intro s _; exact exchange_kept_refl s
  | cons e es ih =>
    intro s h
    have h1 : e.bus_not_report s = true := (Bool.and_eq_true_iff.1 h).1
    have h2 : no_report_read gen (step gen s e) es = true := (Bool.and_eq_true_iff.1 h).2
    have hstep : exchange_kept s (step gen s e) := by
      cases e with
      | write rx => exact receive_bytes_kept gen s rx
      | read => exact handle_request_kept s (by simpa [Event.bus_not_report] using h1)
      | set_byte i v => exact absurd h1 (by simp [Event.bus_not_report])
      | swap b => exact absurd h1 (by simp [Event.bus_not_report])
    exact exchange_kept_trans hstep (ih _ h2)

/-- C8: `wiimote_swap_buffers s B` returns the buffer that was active and makes `B` active;
after any write events and reads of other registers, the next read request with `0x00`
addressed is answered with the six bytes `B` held at the swap, through the read-side cipher,
whatever `wiimote_stream` holds -/
theorem swap_buffers_hands_over (gen : GenTabs) (s : State) (B : Nat) (evs : List Event)
    (hev : no_report_read gen (wiimote_swap_buffers s B).1 evs = true)
    (h0 : (run gen (wiimote_swap_buffers s B).1 evs).state = 0x00) :
    (wiimote_swap_buffers s B).2 = s.curbuf ∧
    (wiimote_swap_buffers s B).1.curbuf = B ∧
    (run gen (wiimote_swap_buffers s B).1 evs).curbuf = B ∧
    (run gen (wiimote_swap_buffers s B).1 evs).bufs = s.bufs ∧
    (handle_request (run gen (wiimote_swap_buffers s B).1 evs)).2 =
      wire_report (run gen (wiimote_swap_buffers s B).1 evs) B := by
  obtain ⟨k1, k2, -⟩ := run_kept gen evs _ hev
  refine ⟨rfl, rfl, k2, k1, ?_⟩
  simp only [handle_request, handle_request_select, if_pos h0]
  rw [send_data_buf, k2]
  rfl

/-- C8 at a concrete input: with a streaming callback registered, buffer `1` is swapped in,
the host reads register `0x20` and then addresses `0x00`; the swap returned `outbuf` and the
read of `0x00` is answered with the bytes of buffer `1` -/
theorem swap_buffers_hands_over_witness :
    (wiimote_swap_buffers streaming 1).2 = 0 ∧
    (handle_request (run gen_zero (wiimote_swap_buffers streaming 1).1
      [Event.write [0x20], Event.read, Event.write [0x00]])).2 = [1, 2, 3, 4, 5, 6] := by
  have h := swap_buffers_hands_over gen_zero streaming 1
    [Event.write [0x20], Event.read, Event.write [0x00]]
    (by decide) (by decide)
  refine ⟨h.1, ?_⟩
  rw [h.2.2.2.2]
  decide

/-- C9, as the code has it: a read request with `0x00` addressed is answered with the six
bytes of the buffer active before it, passed through the read-side cipher (the bytes
themselves when the cipher is off); afterwards a registered streaming callback `h` has been
called once with that buffer and what it returns is the active buffer, and with none
registered the state is unchanged.  A read request with another register addressed calls no
streaming callback and leaves the active buffer and the buffer contents as they are. -/
theorem report_read_and_stream (s : State) :
    (s.state = 0x00 →
      (handle_request s).2 = wire_report s s.curbuf ∧
      (∀ h : StreamFn, s.wiimote_stream = some h →
        (handle_request s).1.curbuf = (h s.curbuf s.bufs).1 ∧
        (handle_request s).1.bufs = (h s.curbuf s.bufs).2 ∧
        (handle_request s).1.streamed = s.streamed ++ [s.curbuf]) ∧
      (s.wiimote_stream = none → (handle_request s).1 = s)) ∧
    (s.state ≠ 0x00 →
      (handle_request s).1.curbuf = s.curbuf ∧ (handle_request s).1.bufs = s.bufs ∧
      (handle_request s).1.streamed = s.streamed) ∧
    (s.wiimote_registers 0xF0 ≠ 0xAA ∨ s.crypt_setup_done = 0 →
      wire_report s s.curbuf = s.report s.curbuf) := by
  refine ⟨fun h0 => ⟨?_, ?_, ?_⟩, fun h0 => ?_, fun hoff => ?_⟩
  · simp only [handle_request, handle_request_select, if_pos h0]
    rw [send_data_buf]
  · intro h hh
    rw [handle_request_state, if_pos h0]
    simp [stream_step, hh]
  · intro hn
    rw [handle_request_state, if_pos h0]
    simp [stream_step, hn]
  · obtain ⟨k1, k2, -, -, k5⟩ := handle_request_kept s h0
    exact ⟨k2, k1, k5⟩
  · have h2 : ¬ (s.wiimote_registers 0xF0 = 0xAA ∧ s.crypt_setup_done ≠ 0) := by
      rintro ⟨h1, h2⟩
      rcases hoff with h | h
      · exact h h1
      · exact h2 h
    simp only [wire_report, State.report, if_neg h2]

/-- C9 evaluated with a streaming callback registered: the read of `0x00` is answered with the
report `wiimote_init` wrote into `outbuf`, and the buffer the callback returned is active -/
theorem report_read_and_stream_witness :
    (handle_request streaming).2 = [0x9F, 0x1F, 0x40, 0x40, 0x3F, 0xFF] ∧
    (handle_request streaming).1.curbuf = 7 := by
  have h := (report_read_and_stream streaming).1 (by decide)
  refine ⟨?_, (h.2.1 (fun _ m => (7, m)) rfl).1⟩
  rw [h.1]
  decide

/-- C9 fails as stated once the cipher is on: after `wiimote_init` and a key exchange that
yields the feedback table `1, .., 1`, the read of register `0x00` is answered with
`9E 1E 3F 3F 3E FE`, while the active buffer holds `9F 1F 40 40 3F FF` -/
theorem report_read_is_enciphered :
    keyed.state = 0x00 ∧
    keyed.report keyed.curbuf = [0x9F, 0x1F, 0x40, 0x40, 0x3F, 0xFF] ∧
    (handle_request keyed).2 = [0x9E, 0x1E, 0x3F, 0x3F, 0x3E, 0xFE] ∧
    (handle_request keyed).2 ≠ keyed.report keyed.curbuf := by
  decide

/-! ## Write dispatcher -/

theorem tables_kept_refl (s : State) : tables_kept s s := ⟨rfl, rfl, rfl, rfl, rfl, rfl⟩

theorem tables_kept_trans {s t u : State} (h1 : tables_kept s t) (h2 : tables_kept t u) :
    tables_kept s u :=
  ⟨h2.1.trans h1.1, h2.2.1.trans h1.2.1, h2.2.2.1.trans h1.2.2.1,
    h2.2.2.2.1.trans h1.2.2.2.1, h2.2.2.2.2.1.trans h1.2.2.2.2.1,
    h2.2.2.2.2.2.trans h1.2.2.2.2.2⟩

theorem receive_byte_tables (addr : Nat) (l : RecvLoop) (d : Nat) :
    tables_kept l.st (receive_byte addr l d).st := by
  unfold receive_byte tables_kept
  by_cases h1 : addr = 0xF0 ∧ d = 0x55
  · simp only [if_pos h1]
    split <;> exact ⟨rfl, rfl, rfl, rfl, rfl, rfl⟩
  · simp only [if_neg h1]
    split <;> exact ⟨rfl, rfl, rfl, rfl, rfl, rfl⟩

theorem receive_byte_cursor (addr : Nat) (l : RecvLoop) (d : Nat) :
    (receive_byte addr l d).curr = (l.curr + 1) % 256 ∧
    (receive_byte addr l d).crypt_keys_received =
      if (l.curr + 1) % 256 = 0x50 then 1 else l.crypt_keys_received := ⟨rfl, rfl⟩

/-- The store loop of `receive_bytes`: the cursor advances by one per data byte, modulo 256,
and the flag `crypt_keys_received` is set exactly when the cursor took the value `0x50`,
which it does within `n` bytes iff `(0x4F + 256 - curr) % 256 < n` -/
theorem receive_loop_cursor (addr : Nat) (data : List Nat) :
    ∀ l : RecvLoop, l.curr < 256 →
      tables_kept l.st (data.foldl (receive_byte addr) l).st ∧
      (data.foldl (receive_byte addr) l).curr = (l.curr + data.length) % 256 ∧
      ((data.foldl (receive_byte addr) l).crypt_keys_received ≠ 0 ↔
        l.crypt_keys_received ≠ 0 ∨ (0x4F + 256 - l.curr) % 256 < data.length) := by
  induction data with
  | nil =>
    intro l hl
    refine ⟨tables_kept_refl _, ?_, ?_⟩
    · simp [Nat.mod_eq_of_lt hl]
    · simp
  | cons d ds ih =>
    intro l hl
    obtain ⟨c1, c2⟩ := receive_byte_cursor addr l d
    have hl2 : (receive_byte addr l d).curr < 256 := by rw [c1]; omega
    obtain ⟨i1, i2, i3⟩ := ih (receive_byte addr l d) hl2
    refine ⟨tables_kept_trans (receive_byte_tables addr l d) i1, ?_, ?_⟩
    · show (List.foldl (receive_byte addr) (receive_byte addr l d) ds).curr = _
      rw [i2, c1, List.length_cons]
      omega
    · show (List.foldl (receive_byte addr) (receive_byte addr l d) ds).crypt_keys_received ≠ 0
        ↔ _
      rw [i3, c1, c2, List.length_cons]
      by_cases h50 : (l.curr + 1) % 256 = 0x50
      · simp only [if_pos h50]
        constructor
        · intro _; right; omega
        · intro _; left; decide
      · simp only [if_neg h50]
        constructor
        · rintro (h | h)
          · left; exact h
          · right; omega
        · rintro (h | h)
          · left; exact h
          · right; omega

theorem setup_encryption_calls (gen : GenTabs) (t : State) :
    (setup_encryption gen t).gentabs_calls.length = t.gentabs_calls.length + 1 ∧
    (setup_encryption gen t).crypt_setup_done = 1 := by
  simp [setup_encryption]

/-- A write event with at least one data byte: the state handed to the tail of
`receive_bytes` keeps the tables, and the flag tells whether the cursor took the value
`0x50` -/
theorem receive_bytes_multi (gen : GenTabs) (s : State) (a d : Nat) (ds : List Nat)
    (ha : a < 256) :
    ∃ (t : State) (k : Nat), tables_kept s t ∧
      receive_bytes gen s (a :: d :: ds) = receive_finish gen t k ∧
      (k ≠ 0 ↔ (0x4F + 256 - a) % 256 < (d :: ds).length) := by
  have ha256 : a % 256 = a := Nat.mod_eq_of_lt ha
  obtain ⟨l1, -, l3⟩ := receive_loop_cursor a ((d :: ds).map (· % 256))
    { st := s, curr := a, crypt_keys_received := 0 } ha
  simp only [receive_bytes, ha256]
  refine ⟨_, _, ?_, rfl, ?_⟩
  · split
    · exact tables_kept_trans l1 ⟨rfl, rfl, rfl, rfl, rfl, rfl⟩
    · exact l1
  · rw [l3]
    simp

theorem receive_finish_idle (gen : GenTabs) (t : State) :
    tables_kept t (receive_finish gen t 0) := by
  unfold receive_finish
  split <;> simp [tables_kept]

theorem receive_finish_setup (gen : GenTabs) (t : State) (k : Nat) (hk : k ≠ 0) :
    ∃ u : State, tables_kept t u ∧ receive_finish gen t k = setup_encryption gen u := by
  unfold receive_finish
  rw [if_pos hk]
  split
  · exact ⟨{ t with serial := t.serial ++ [t.state] }, ⟨rfl, rfl, rfl, rfl, rfl, rfl⟩, rfl⟩
  · exact ⟨t, tables_kept_refl t, rfl⟩

/-- C10: in any prior state, a write event with base address `a` and `n` data bytes,
`1 ≤ n ≤ 7`, runs `setup_encryption` exactly once, at its end, when `a < 0x50 ≤ a + n`, and
not at all otherwise (so never for base address `0x50`); an event of a single byte never runs
it.  The runs are read off the log of table generator calls. -/
theorem setup_fires_once_iff (gen : GenTabs) (s : State) (a : Nat) (data : List Nat)
    (ha : a < 256) (h1 : 1 ≤ data.length) (h7 : data.length ≤ 7) :
    (a < 0x50 ∧ 0x50 ≤ a + data.length →
      (receive_bytes gen s (a :: data)).gentabs_calls.length = s.gentabs_calls.length + 1 ∧
      ∃ t : State, tables_kept s t ∧
        receive_bytes gen s (a :: data) = setup_encryption gen t) ∧
    (¬ (a < 0x50 ∧ 0x50 ≤ a + data.length) →
      tables_kept s (receive_bytes gen s (a :: data))) ∧
    (∀ b : Nat, (receive_bytes gen s [b]).gentabs_calls = s.gentabs_calls ∧
      (receive_bytes gen s [b]).wm_ft = s.wm_ft ∧ (receive_bytes gen s [b]).wm_sb = s.wm_sb ∧
      (receive_bytes gen s [b]).crypt_setup_done = s.crypt_setup_done) := by
  match data, h1, h7 with
  | d :: ds, _, h7 =>
    obtain ⟨t, k, ht, he, hk⟩ := receive_bytes_multi gen s a d ds ha
    refine ⟨?_, ?_, ?_⟩
    · intro hc
      have hk0 : k ≠ 0 := hk.2 (by omega)
      obtain ⟨u, hu, hue⟩ := receive_finish_setup gen t k hk0
      have htu := tables_kept_trans ht hu
      refine ⟨?_, u, htu, he.trans hue⟩
      rw [he, hue, (setup_encryption_calls gen u).1, htu.2.2.2.2.2]
    · intro hc
      have hk0 : k = 0 := by
        by_contra hk0
        have := hk.1 hk0
        omega
      rw [he, hk0]
      exact tables_kept_trans ht (receive_finish_idle gen t)
    · intro b
      obtain ⟨-, -, b3, b4, b5, -, -, -, -, -, b11⟩ := receive_single_frame gen s b
      exact ⟨b11, b4, b5, b3⟩

/-- C10 at a concrete input: after `wiimote_init`, the event `4C 00 00 00 00` brings the
cursor to `0x50` and the table generator is called once -/
theorem setup_fires_once_iff_witness :
    (receive_bytes gen_one started [0x4C, 0, 0, 0, 0]).gentabs_calls.length =
      started.gentabs_calls.length + 1 :=
  ((setup_fires_once_iff gen_one started 0x4C [0, 0, 0, 0] (by decide) (by decide)
    (by decide)).1 ⟨by decide, by decide⟩).1

/-! ## Write events: registers and the ready flag -/

theorem receive_byte_regs (addr : Nat) (l : RecvLoop) (d : Nat) :
    (receive_byte addr l d).st.wiimote_registers =
      store l.st.wiimote_registers l.curr
        (if ¬ (addr = 0xF0 ∧ d = 0x55) ∧ l.st.cipher_on = true then
          decrypt_byte l.st.wm_ft l.st.wm_sb l.curr d
        else d) := by
  unfold receive_byte
  by_cases h1 : addr = 0xF0 ∧ d = 0x55
  · simp [h1, State.cipher_on]
  · by_cases h2 : l.st.cipher_on = true
    · simp [h1, h2]
    · simp [h1, h2]

theorem receive_byte_ready (addr : Nat) (l : RecvLoop) (d : Nat) :
    (receive_byte addr l d).st.crypt_setup_done =
      if addr = 0xF0 ∧ d = 0x55 then 0 else l.st.crypt_setup_done := by
  unfold receive_byte
  by_cases h1 : addr = 0xF0 ∧ d = 0x55
  · simp only [if_pos h1]
    split <;> rfl
  · simp only [if_neg h1]
    split <;> rfl

/-- The ready flag after the store loop: cleared when the base address is `0xF0` and one of
the bytes is `0x55`, otherwise as before -/
theorem receive_loop_ready (addr : Nat) (data : List Nat) :
    ∀ l : RecvLoop, (data.foldl (receive_byte addr) l).st.crypt_setup_done =
      if addr = 0xF0 ∧ 0x55 ∈ data then 0 else l.st.crypt_setup_done := by
  induction data with
  | nil => intro l; simp
  | cons d ds ih =>
    intro l
    rw [List.foldl_cons, ih, receive_byte_ready]
    by_cases ha : addr = 0xF0
    · by_cases hd : d = 0x55
      · simp [ha, hd]
      · by_cases hm : 0x55 ∈ ds
        · simp [ha, hm]
        · have : ¬ (0x55 = d) := fun h => hd h.symm
          simp [ha, hd, hm, this]
    · simp [ha]

/-- The store loop writes nowhere but at the cells its cursor visits -/
theorem receive_loop_outside (addr : Nat) (data : List Nat) :
    ∀ l : RecvLoop, l.curr < 256 → ∀ j : Nat,
      (∀ i, i < data.length → j ≠ (l.curr + i) % 256) →
      (data.foldl (receive_byte addr) l).st.wiimote_registers j = l.st.wiimote_registers j := by
  induction data with
  | nil => intro l _ j _; rfl
  | cons d ds ih =>
    intro l hl j hj
    have hc1 := (receive_byte_cursor addr l d).1
    rw [List.foldl_cons, ih (receive_byte addr l d) (by rw [hc1]; omega) j]
    · rw [receive_byte_regs]
      have h0 := hj 0 (by simp)
      have hc : j ≠ l.curr := by
        intro h
        apply h0
        rw [h]
        omega
      simp [store, hc]
    · intro i hi
      have := hj (i + 1) (by simp; omega)
      rw [hc1]
      omega

/-- The store loop of an event that neither is based at `0xF0` nor reaches it: the cipher
guard keeps the value it has at the start, so byte `i` is stored at cell `(curr + i) mod 256`
raw when the cipher is off and through `decrypt_byte` when it is on -/
theorem receive_loop_stored (addr : Nat) (haddr : addr ≠ 0xF0) (data : List Nat) :
    ∀ l : RecvLoop, l.curr < 256 → data.length ≤ 256 →
      (∀ i, i < data.length → (l.curr + i) % 256 ≠ 0xF0) →
      ∀ (i d : Nat), data[i]? = some d →
        (data.foldl (receive_byte addr) l).st.wiimote_registers ((l.curr + i) % 256) =
          if l.st.cipher_on = true then
            decrypt_byte l.st.wm_ft l.st.wm_sb ((l.curr + i) % 256) d
          else d := by
  induction data with
  | nil => intro l _ _ _ i d h; simp at h
  | cons d0 ds ih =>
    intro l hl hlen hF i d hid
    have hc1 := (receive_byte_cursor addr l d0).1
    have hcur : (receive_byte addr l d0).curr < 256 := by rw [hc1]; omega
    have hlen1 : ds.length + 1 ≤ 256 := by simpa using hlen
    have hno : ¬ (addr = 0xF0 ∧ d0 = 0x55) := fun h => haddr h.1
    have hregs := receive_byte_regs addr l d0
    have hcsd := receive_byte_ready addr l d0
    rw [if_neg hno] at hcsd
    obtain ⟨-, hft, hsb, -⟩ := receive_byte_tables addr l d0
    have hF0 : l.curr ≠ 0xF0 := by
      have := hF 0 (by simp)
      omega
    have hon : (receive_byte addr l d0).st.cipher_on = l.st.cipher_on := by
      unfold State.cipher_on
      rw [hcsd, hregs]
      simp [store, Ne.symm hF0]
    rw [List.foldl_cons]
    cases i with
    | zero =>
      simp at hid
      subst hid
      rw [receive_loop_outside addr ds _ hcur]
      · rw [hregs]
        have : (l.curr + 0) % 256 = l.curr := by omega
        rw [this]
        by_cases hc : l.st.cipher_on = true
        · simp [store, hno, hc]
        · simp [store, hc]
      · intro k hk
        rw [hc1]
        omega
    | succ k =>
      have hid2 : ds[k]? = some d := by simpa using hid
      have hk : k < ds.length := by
        by_contra hk
        rw [List.getElem?_eq_none (by omega)] at hid2
        exact absurd hid2 (by simp)
      have hidx : (l.curr + (k + 1)) % 256 = ((receive_byte addr l d0).curr + k) % 256 := by
        rw [hc1]; omega
      rw [hidx, ih (receive_byte addr l d0) hcur (by omega) ?_ k d hid2, hon, hft, hsb]
      intro m hm
      have := hF (m + 1) (by simp; omega)
      rw [hc1]
      omega

theorem setup_encryption_regs (gen : GenTabs) (t : State) :
    (setup_encryption gen t).wiimote_registers = t.wiimote_registers := rfl

theorem receive_finish_regs (gen : GenTabs) (t : State) (k : Nat) :
    (receive_finish gen t k).wiimote_registers = t.wiimote_registers ∧
    (receive_finish gen t k).crypt_setup_done = if k ≠ 0 then 1 else t.crypt_setup_done := by
  by_cases h1 : t.state = 0 <;> by_cases h2 : k = 0 <;>
    simp [receive_finish, h1, h2, setup_encryption]

/-- Registers and ready flag after a write event with at least one data byte, from the store
loop: the registers are those the loop leaves, the flag is set when the cursor took the
value `0x50` and is otherwise the one the loop leaves -/
theorem receive_bytes_regs (gen : GenTabs) (s : State) (a d : Nat) (ds : List Nat) :
    (receive_bytes gen s (a :: d :: ds)).wiimote_registers =
      (receive_loop (a % 256) s (d :: ds)).st.wiimote_registers ∧
    (receive_bytes gen s (a :: d :: ds)).crypt_setup_done =
      if (receive_loop (a % 256) s (d :: ds)).crypt_keys_received ≠ 0 then 1
      else (receive_loop (a % 256) s (d :: ds)).st.crypt_setup_done := by
  simp only [receive_bytes, receive_loop]
  constructor
  · rw [(receive_finish_regs gen _ _).1]
    split <;> rfl
  · rw [(receive_finish_regs gen _ _).2]
    split
    · rfl
    · split <;> rfl

theorem map_mod_bytes (data : List Nat) (hd : ∀ d ∈ data, d < 256) :
    data.map (· % 256) = data := by
  induction data with
  | nil => rfl
  | cons d ds ih =>
    rw [List.map_cons, ih (fun x hx => hd x (List.mem_cons_of_mem d hx)),
      Nat.mod_eq_of_lt (hd d (List.mem_cons_self d ds))]

/-- The flag `crypt_keys_received` after the store loop of an event of at most seven data
bytes -/
theorem receive_loop_flag (s : State) (a : Nat) (data : List Nat) (ha : a < 256)
    (h7 : data.length ≤ 7) :
    (receive_loop a s data).crypt_keys_received ≠ 0 ↔ a < 0x50 ∧ 0x50 ≤ a + data.length := by
  have h := (receive_loop_cursor a (data.map (· % 256))
    { st := s, curr := a, crypt_keys_received := 0 } ha).2.2
  unfold receive_loop
  rw [h, List.length_map]
  constructor
  · rintro (h | h)
    · exact absurd rfl h
    · have h' : (0x4F + 256 - a) % 256 < data.length := h
      omega
  · intro h
    right
    show (0x4F + 256 - a) % 256 < data.length
    omega

/-- C13: a write event with base address `a` and data bytes `d_0 .. d_{n-1}`, `1 ≤ n ≤ 7`,
none of them destined for register `0xF0`, leaves `d_i` in register `(a + i) mod 256` when
the cipher is off at the start of the event and
`((d_i xor sb[(a+i) mod 8]) + ft[(a+i) mod 8]) mod 256` when it is on; every other register,
the report buffers and the active buffer are unchanged -/
theorem write_event_stores (gen : GenTabs) (s : State) (a : Nat) (data : List Nat)
    (ha : a < 256) (hd : ∀ d ∈ data, d < 256) (h1 : 1 ≤ data.length)
    (h7 : data.length ≤ 7) (hF : ∀ i, i < data.length → (a + i) % 256 ≠ 0xF0) :
    a ≠ 0xF0 ∧
    (∀ (i d : Nat), data[i]? = some d →
      (receive_bytes gen s (a :: data)).wiimote_registers ((a + i) % 256) =
        if s.wiimote_registers 0xF0 = 0xAA ∧ s.crypt_setup_done ≠ 0 then
          ((d ^^^ s.wm_sb ((a + i) % 8)) + s.wm_ft ((a + i) % 8)) % 256
        else d) ∧
    (∀ j : Nat, (∀ i, i < data.length → j ≠ (a + i) % 256) →
      (receive_bytes gen s (a :: data)).wiimote_registers j = s.wiimote_registers j) ∧
    (receive_bytes gen s (a :: data)).bufs = s.bufs ∧
    (receive_bytes gen s (a :: data)).curbuf = s.curbuf := by
  have haF : a ≠ 0xF0 := by
    have := hF 0 (by omega)
    omega
  have ha256 : a % 256 = a := Nat.mod_eq_of_lt ha
  obtain ⟨k1, k2, -⟩ := receive_bytes_kept gen s (a :: data)
  refine ⟨haF, ?_, ?_, k1, k2⟩
  · intro i d hid
    match data, h1 with
    | d0 :: ds, _ =>
      rw [(receive_bytes_regs gen s a d0 ds).1, ha256]
      unfold receive_loop
      rw [map_mod_bytes _ hd]
      have h := receive_loop_stored a haF (d0 :: ds)
        { st := s, curr := a, crypt_keys_received := 0 } ha (by omega) hF i d hid
      rw [h]
      have hm : (a + i) % 256 % 8 = (a + i) % 8 := by omega
      by_cases hc : s.cipher_on = true
      · have hc2 := (cipher_on_iff s).1 hc
        simp only [hc, if_true, if_pos hc2, decrypt_byte, hm]
      · have hc2 : ¬ (s.wiimote_registers 0xF0 = 0xAA ∧ s.crypt_setup_done ≠ 0) := by
          rw [← cipher_on_iff]; exact hc
        simp only [if_neg hc, if_neg hc2]
  · intro j hj
    match data, h1 with
    | d0 :: ds, _ =>
      rw [(receive_bytes_regs gen s a d0 ds).1, ha256]
      unfold receive_loop
      rw [map_mod_bytes _ hd]
      exact receive_loop_outside a (d0 :: ds)
        { st := s, curr := a, crypt_keys_received := 0 } ha j hj

/-- C13 at a concrete input: with the cipher on (feedback table `1, .., 1`, substitution box
`0, .., 0`) the event `10 41 42` leaves `0x42`, `0x43` in registers `0x10`, `0x11` and
register `0x12` as it was -/
theorem write_event_stores_witness :
    (receive_bytes gen_one keyed [0x10, 0x41, 0x42]).wiimote_registers 0x10 = 0x42 ∧
    (receive_bytes gen_one keyed [0x10, 0x41, 0x42]).wiimote_registers 0x11 = 0x43 ∧
    (receive_bytes gen_one keyed [0x10, 0x41, 0x42]).wiimote_registers 0x12 =
      keyed.wiimote_registers 0x12 := by
  have h := write_event_stores gen_one keyed 0x10 [0x41, 0x42] (by decide) (by decide)
    (by decide) (by decide) (by decide)
  exact ⟨(h.2.1 0 0x41 rfl).trans (by decide), (h.2.1 1 0x42 rfl).trans (by decide),
    h.2.2.1 0x12 (by decide)⟩

/-- Ready flag after a write event of `1 .. 7` data bytes: `1` when the cursor took the value
`0x50`, `0` when the base address is `0xF0` and a byte is `0x55`, otherwise as before -/
theorem receive_bytes_ready (gen : GenTabs) (s : State) (a : Nat) (data : List Nat)
    (ha : a < 256) (hd : ∀ d ∈ data, d < 256) (h1 : 1 ≤ data.length)
    (h7 : data.length ≤ 7) :
    (receive_bytes gen s (a :: data)).crypt_setup_done =
      if a < 0x50 ∧ 0x50 ≤ a + data.length then 1
      else if a = 0xF0 ∧ 0x55 ∈ data then 0 else s.crypt_setup_done := by
  have ha256 : a % 256 = a := Nat.mod_eq_of_lt ha
  match data, h1 with
  | d0 :: ds, _ =>
    rw [(receive_bytes_regs gen s a d0 ds).2, ha256]
    have hflag := receive_loop_flag s a (d0 :: ds) ha h7
    by_cases hk : a < 0x50 ∧ 0x50 ≤ a + (d0 :: ds).length
    · rw [if_pos (hflag.2 hk), if_pos hk]
    · have hk0 : ¬ ((receive_loop a s (d0 :: ds)).crypt_keys_received ≠ 0) :=
        fun h => hk (hflag.1 h)
      rw [if_neg hk0, if_neg hk]
      unfold receive_loop
      rw [map_mod_bytes _ hd, receive_loop_ready]

/-- C11, as the code has it: in every prior state, a write event of at most seven data bytes
whose base address is `0xF0` and whose first raw data byte, the one destined for register
`0xF0`, is `0x55` leaves `crypt_setup_done` clear; the test is on the raw byte, before the
cipher guard.  An event with a base address below `0xF0` tests no byte, so a set flag stays
set whatever byte it brings to register `0xF0`. -/
theorem disable_byte_clears_ready (gen : GenTabs) (s : State) (rest : List Nat)
    (hd : ∀ d ∈ rest, d < 256) (h6 : rest.length ≤ 6) :
    (receive_bytes gen s (0xF0 :: 0x55 :: rest)).crypt_setup_done = 0 ∧
    (receive_bytes gen s (0xF0 :: 0x55 :: rest)).wiimote_registers 0xF0 = 0x55 ∧
    (∀ (a : Nat) (data : List Nat), a < 0xF0 → (∀ d ∈ data, d < 256) →
      1 ≤ data.length → data.length ≤ 7 → s.crypt_setup_done ≠ 0 →
      (receive_bytes gen s (a :: data)).crypt_setup_done ≠ 0) := by
  have hd' : ∀ d ∈ 0x55 :: rest, d < 256 := by
    intro d hm
    rcases List.mem_cons.1 hm with h | h
    · rw [h]; decide
    · exact hd d h
  refine ⟨?_, ?_, ?_⟩
  · rw [receive_bytes_ready gen s 0xF0 (0x55 :: rest) (by decide) hd' (by simp)
      (by simp; omega)]
    simp
  · rw [(receive_bytes_regs gen s 0xF0 0x55 rest).1]
    unfold receive_loop
    rw [map_mod_bytes _ hd', List.foldl_cons]
    have hc1 := (receive_byte_cursor 0xF0
      { st := s, curr := 0xF0 % 256, crypt_keys_received := 0 } 0x55).1
    rw [receive_loop_outside 0xF0 rest _ (by rw [hc1]; omega) 0xF0]
    · rw [receive_byte_regs]
      simp [store]
    · intro i hi
      rw [hc1]
      have : (0xF0 % 256 + 1) % 256 = 0xF1 := by decide
      rw [this]
      omega
  · intro a data ha hda h1 h7 hs
    rw [receive_bytes_ready gen s a data (by omega) hda h1 h7]
    have hne : ¬ (a = 0xF0 ∧ 0x55 ∈ data) := fun h => by omega
    rw [if_neg hne]
    split
    · decide
    · exact hs

/-- C11 at a concrete input: with the cipher on, the event `F0 55` clears the flag and leaves
`0x55` in register `0xF0` -/
theorem disable_byte_clears_ready_witness :
    keyed.crypt_setup_done = 1 ∧
    (receive_bytes gen_one keyed [0xF0, 0x55]).crypt_setup_done = 0 ∧
    (receive_bytes gen_one keyed [0xF0, 0x55]).wiimote_registers 0xF0 = 0x55 := by
  have h := disable_byte_clears_ready gen_one keyed [] (by decide) (by decide)
  exact ⟨by decide, h.1, h.2.1⟩

/-- C11 fails for a lower base address: with the cipher on and the flag set, the event
`EF 00 55` brings the raw byte `0x55` to register `0xF0` and the flag is still set after it;
the same with the cipher off (`0xF0` holding `0x55`) and the flag set -/
theorem disable_byte_from_lower_base_ignored :
    (0xEF + 1) % 256 = 0xF0 ∧
    keyed.crypt_setup_done = 1 ∧
    (receive_bytes gen_one keyed [0xEF, 0x00, 0x55]).crypt_setup_done = 1 ∧
    (receive_bytes gen_one (receive_bytes gen_one keyed [0xF0, 0x55])
      [0x4F, 0x00]).crypt_setup_done = 1 ∧
    (receive_bytes gen_one (receive_bytes gen_one (receive_bytes gen_one keyed [0xF0, 0x55])
      [0x4F, 0x00]) [0xEF, 0x00, 0x55]).crypt_setup_done = 1 := by
  decide

/-- C20: a write event of `1 .. 7` data bytes clears `crypt_setup_done` exactly when its base
address is `0xF0` and one of its raw data bytes is `0x55` (whichever of `0xF0 .. 0xF6` that
byte is destined for); any other event leaves the flag as it was, or set by the key setup,
also when it brings `0x55` to register `0xF0` from a lower base address.  A `0x55` that is
the first data byte of an event based at `0xF0` is stored raw, so register `0xF0` holds
`0x55` afterwards. -/
theorem ready_cleared_iff (gen : GenTabs) (s : State) (a : Nat) (data : List Nat)
    (ha : a < 256) (hd : ∀ d ∈ data, d < 256) (h1 : 1 ≤ data.length)
    (h7 : data.length ≤ 7) :
    (a = 0xF0 ∧ 0x55 ∈ data → (receive_bytes gen s (a :: data)).crypt_setup_done = 0) ∧
    (¬ (a = 0xF0 ∧ 0x55 ∈ data) →
      (receive_bytes gen s (a :: data)).crypt_setup_done = s.crypt_setup_done ∨
      (receive_bytes gen s (a :: data)).crypt_setup_done = 1) ∧
    (s.crypt_setup_done ≠ 0 →
      ((receive_bytes gen s (a :: data)).crypt_setup_done = 0 ↔ a = 0xF0 ∧ 0x55 ∈ data)) ∧
    (a = 0xF0 → data[0]? = some 0x55 →
      (receive_bytes gen s (a :: data)).wiimote_registers 0xF0 = 0x55) := by
  have hr := receive_bytes_ready gen s a data ha hd h1 h7
  refine ⟨?_, ?_, ?_, ?_⟩
  · intro h
    have hk : ¬ (a < 0x50 ∧ 0x50 ≤ a + data.length) := fun hk => by omega
    rw [hr, if_neg hk, if_pos h]
  · intro h
    rw [hr, if_neg h]
    split
    · right; rfl
    · left; rfl
  · intro hs
    rw [hr]
    constructor
    · intro h0
      by_contra hne
      rw [if_neg hne] at h0
      split at h0
      · exact absurd h0 (by decide)
      · exact hs h0
    · intro h
      have hk : ¬ (a < 0x50 ∧ 0x50 ≤ a + data.length) := fun hk => by omega
      rw [if_neg hk, if_pos h]
  · intro haF h0
    match data, h1 with
    | d0 :: ds, _ =>
      have hd0 : d0 = 0x55 := by simpa using h0
      subst hd0
      subst haF
      rw [(receive_bytes_regs gen s 0xF0 0x55 ds).1]
      unfold receive_loop
      rw [map_mod_bytes _ hd, List.foldl_cons]
      have hc1 := (receive_byte_cursor 0xF0
        { st := s, curr := 0xF0 % 256, crypt_keys_received := 0 } 0x55).1
      rw [receive_loop_outside 0xF0 ds _ (by rw [hc1]; omega) 0xF0]
      · rw [receive_byte_regs]
        simp [store]
      · intro i hi
        rw [hc1]
        have : (0xF0 % 256 + 1) % 256 = 0xF1 := by decide
        rw [this]
        have : ds.length ≤ 6 := by simpa using h7
        omega

/-- C20 at a concrete input: with the flag set, the event `F0 00 00 55` (the `0x55` destined
for register `0xF2`) clears it -/
theorem ready_cleared_iff_witness :
    keyed.crypt_setup_done = 1 ∧
    (receive_bytes gen_one keyed [0xF0, 0x00, 0x00, 0x55]).crypt_setup_done = 0 := by
  have h := ready_cleared_iff gen_one keyed 0xF0 [0x00, 0x00, 0x55] (by decide) (by decide)
    (by decide) (by decide)
  exact ⟨by decide, h.1 ⟨rfl, by decide⟩⟩

/-- A write event of a single byte, field by field -/
theorem receive_single_eq (gen : GenTabs) (s : State) (b : Nat) :
    receive_bytes gen s [b] =
      if b % 256 ≠ 0 then { s with state := b % 256, serial := s.serial ++ [b % 256] }
      else { s with state := b % 256 } := by
  simp [receive_bytes, receive_finish]

/-- The addressed register after a write event with data bytes -/
theorem receive_multi_state (gen : GenTabs) (s : State) (a d : Nat) (ds : List Nat) :
    (receive_bytes gen s (a :: d :: ds)).state = s.state := by
  have hl := (receive_loop_cursor (a % 256) ((d :: ds).map (· % 256))
    { st := s, curr := a % 256, crypt_keys_received := 0 }
    (Nat.mod_lt _ (by decide))).1
  simp only [receive_bytes]
  have hf : ∀ (t : State) (k : Nat), (receive_finish gen t k).state = t.state := by
    intro t k
    by_cases h1 : t.state = 0 <;> by_cases h2 : k = 0 <;>
      simp [receive_finish, h1, h2, setup_encryption]
  rw [hf]
  split
  · exact hl.1
  · exact hl.1

/-- C14: a write event of exactly one byte `b` makes `b` the addressed register `state` and
changes no register-file cell, no cipher state, no report buffer and calls no write
notification; every other event (a write event with data bytes or with no byte at all, a read
request, `wiimote_set_byte`, `wiimote_swap_buffers`) leaves `state` as it is, and so do
`wiimote_write_buffer` and `wiimote_init` -/
theorem addressed_register_set_by_single_byte (gen : GenTabs) (s : State) (b : Nat)
    (hb : b < 256) :
    ((receive_bytes gen s [b]).state = b ∧
      (receive_bytes gen s [b]).wiimote_registers = s.wiimote_registers ∧
      (receive_bytes gen s [b]).crypt_setup_done = s.crypt_setup_done ∧
      (receive_bytes gen s [b]).wm_ft = s.wm_ft ∧
      (receive_bytes gen s [b]).wm_sb = s.wm_sb ∧
      (receive_bytes gen s [b]).wm_rand = s.wm_rand ∧
      (receive_bytes gen s [b]).wm_key = s.wm_key ∧
      (receive_bytes gen s [b]).gentabs_calls = s.gentabs_calls ∧
      (receive_bytes gen s [b]).bufs = s.bufs ∧
      (receive_bytes gen s [b]).curbuf = s.curbuf ∧
      (receive_bytes gen s [b]).received = s.received) ∧
    (∀ e : Event, (∀ x : Nat, e ≠ Event.write [x]) → (step gen s e).state = s.state) ∧
    (∀ (a d : Nat) (ds : List Nat), (receive_bytes gen s (a :: d :: ds)).state = s.state) ∧
    (∀ buffer : Nat, (wiimote_write_buffer s buffer).state = s.state) ∧
    (wiimote_init s).state = s.state := by
  refine ⟨?_, ?_, ?_, fun _ => rfl, rfl⟩
  · rw [receive_single_eq, Nat.mod_eq_of_lt hb]
    split <;> exact ⟨rfl, rfl, rfl, rfl, rfl, rfl, rfl, rfl, rfl, rfl, rfl⟩
  · intro e he
    cases e with
    | write rx =>
      match rx with
      | [] =>
        show (receive_finish gen s 0).state = s.state
        by_cases h1 : s.state = 0 <;> simp [receive_finish, h1]
      | [x] => exact absurd rfl (he x)
      | a :: d :: ds => exact receive_multi_state gen s a d ds
    | read => exact (handle_request_frame s).1
    | set_byte i v => rfl
    | swap buffer => rfl
  · intro a d ds
    exact receive_multi_state gen s a d ds

/-- C14 at a concrete input: after `wiimote_init`, the event `20` addresses register `0x20`,
and a following event `10 41 42` leaves it addressed -/
theorem addressed_register_set_by_single_byte_witness :
    (receive_bytes gen_zero started [0x20]).state = 0x20 ∧
    (receive_bytes gen_zero (receive_bytes gen_zero started [0x20]) [0x10, 0x41, 0x42]).state
      = 0x20 := by
  have h1 := addressed_register_set_by_single_byte gen_zero started 0x20 (by decide)
  have h2 := addressed_register_set_by_single_byte gen_zero
    (receive_bytes gen_zero started [0x20]) 0x20 (by decide)
  exact ⟨h1.1.1, (h2.2.2.1 0x10 0x41 [0x42]).trans h1.1.1⟩

/-- The seed and key arrays `setup_encryption` fills, cell by cell -/
theorem setup_encryption_loads (gen : GenTabs) (t : State) :
    (∀ j, j < 10 → (setup_encryption gen t).wm_rand j = t.wiimote_registers (0x49 - j)) ∧
    (∀ j, j < 6 → (setup_encryption gen t).wm_key j = t.wiimote_registers (0x4F - j)) := by
  constructor
  · intro j hj
    simp only [setup_encryption, List.range', List.foldl, store]
    interval_cases j <;> simp
  · intro j hj
    simp only [setup_encryption, List.range', List.foldl, store]
    interval_cases j <;> simp

/-- What `setup_encryption` hands to the table generator and takes from it -/
theorem setup_encryption_tables (gen : GenTabs) (t : State) :
    (setup_encryption gen t).wm_ft =
      (gen (setup_encryption gen t).wm_rand (setup_encryption gen t).wm_key).1 ∧
    (setup_encryption gen t).wm_sb =
      (gen (setup_encryption gen t).wm_rand (setup_encryption gen t).wm_key).2 ∧
    (setup_encryption gen t).gentabs_calls = t.gentabs_calls ++
      [((List.range 10).map (setup_encryption gen t).wm_rand,
        (List.range 6).map (setup_encryption gen t).wm_key)] ∧
    (setup_encryption gen t).crypt_setup_done = 1 ∧
    (setup_encryption gen t).wiimote_registers = t.wiimote_registers :=
  ⟨rfl, rfl, rfl, rfl, rfl⟩

/-- The ready flag and the generator log after the store loop: the log is untouched and the
flag is never raised -/
theorem receive_loop_not_raised (addr : Nat) (data : List Nat) (l : RecvLoop) :
    (data.foldl (receive_byte addr) l).st.gentabs_calls = l.st.gentabs_calls ∧
    ((data.foldl (receive_byte addr) l).st.crypt_setup_done = l.st.crypt_setup_done ∨
      (data.foldl (receive_byte addr) l).st.crypt_setup_done = 0) := by
  constructor
  · have h : ∀ (ds : List Nat) (m : RecvLoop),
        (ds.foldl (receive_byte addr) m).st.gentabs_calls = m.st.gentabs_calls := by
      intro ds
      induction ds with
      | nil => intro m; rfl
      | cons d ds ih =>
        intro m
        rw [List.foldl_cons, ih, (receive_byte_tables addr m d).2.2.2.2.2]
    exact h data l
  · rw [receive_loop_ready]
    split
    · right; rfl
    · left; rfl

/-- A write event either runs the key setup at its end, on the registers the event leaves, or
leaves the generator log alone and does not raise the ready flag -/
theorem receive_bytes_setup_or_not (gen : GenTabs) (s : State) (rx : List Nat) :
    (∃ t : State, receive_bytes gen s rx = setup_encryption gen t ∧
      t.gentabs_calls = s.gentabs_calls) ∨
    ((receive_bytes gen s rx).gentabs_calls = s.gentabs_calls ∧
      ((receive_bytes gen s rx).crypt_setup_done = s.crypt_setup_done ∨
        (receive_bytes gen s rx).crypt_setup_done = 0)) := by
  have hfin : ∀ (t : State) (k : Nat),
      (∃ u : State, receive_finish gen t k = setup_encryption gen u ∧
        u.gentabs_calls = t.gentabs_calls) ∨
      ((receive_finish gen t k).gentabs_calls = t.gentabs_calls ∧
        (receive_finish gen t k).crypt_setup_done = t.crypt_setup_done) := by
    intro t k
    by_cases hk : k ≠ 0
    · left
      obtain ⟨u, hu, hue⟩ := receive_finish_setup gen t k hk
      exact ⟨u, hue, hu.2.2.2.2.2⟩
    · right
      have hk0 : k = 0 := by simpa using hk
      subst hk0
      by_cases h1 : t.state = 0 <;> simp [receive_finish, h1]
  match rx with
  | [] =>
    rcases hfin s 0 with h | h
    · left; exact h
    · right; exact ⟨h.1, Or.inl h.2⟩
  | [b] =>
    right
    obtain ⟨-, -, b3, -, -, -, -, -, -, -, b11⟩ := receive_single_frame gen s b
    exact ⟨b11, Or.inl b3⟩
  | a :: d :: ds =>
    obtain ⟨l1, l2⟩ := receive_loop_not_raised (a % 256) ((d :: ds).map (· % 256))
      { st := s, curr := a % 256, crypt_keys_received := 0 }
    simp only [receive_bytes]
    generalize List.foldl (receive_byte (a % 256))
      { st := s, curr := a % 256, crypt_keys_received := 0 }
      (List.map (fun x => x % 256) (d :: ds)) = L at l1 l2 ⊢
    have key : ∀ t : State, t.gentabs_calls = L.st.gentabs_calls →
        t.crypt_setup_done = L.st.crypt_setup_done →
        (∃ u : State, receive_finish gen t L.crypt_keys_received = setup_encryption gen u ∧
          u.gentabs_calls = s.gentabs_calls) ∨
        ((receive_finish gen t L.crypt_keys_received).gentabs_calls = s.gentabs_calls ∧
          ((receive_finish gen t L.crypt_keys_received).crypt_setup_done = s.crypt_setup_done ∨
            (receive_finish gen t L.crypt_keys_received).crypt_setup_done = 0)) := by
      intro t ht1 ht2
      rcases hfin t L.crypt_keys_received with h | h
      · left
        obtain ⟨u, hu1, hu2⟩ := h
        exact ⟨u, hu1, hu2.trans (ht1.trans l1)⟩
      · right
        refine ⟨h.1.trans (ht1.trans l1), ?_⟩
        rw [h.2, ht2]
        exact l2
    split
    · exact key _ rfl rfl
    · exact key _ rfl rfl

/-- C17: `setup_encryption` loads `wm_rand[j]` from register `0x49 - j` (`j = 0 .. 9`) and
`wm_key[j]` from register `0x4F - j` (`j = 0 .. 5`), hands both to the table generator, takes
the tables from it and then sets `crypt_setup_done`.  A write event that runs it does so on
the registers the event leaves; a write event that does not, a read request,
`wiimote_set_byte`, `wiimote_swap_buffers`, `wiimote_write_buffer` and `wiimote_init` never
raise the flag. -/
theorem key_setup_loads_seed_and_key (gen : GenTabs) (s : State) :
    ((∀ j, j < 10 → (setup_encryption gen s).wm_rand j = s.wiimote_registers (0x49 - j)) ∧
      (∀ j, j < 6 → (setup_encryption gen s).wm_key j = s.wiimote_registers (0x4F - j)) ∧
      (setup_encryption gen s).wm_ft =
        (gen (setup_encryption gen s).wm_rand (setup_encryption gen s).wm_key).1 ∧
      (setup_encryption gen s).wm_sb =
        (gen (setup_encryption gen s).wm_rand (setup_encryption gen s).wm_key).2 ∧
      (setup_encryption gen s).gentabs_calls = s.gentabs_calls ++
        [((List.range 10).map (setup_encryption gen s).wm_rand,
          (List.range 6).map (setup_encryption gen s).wm_key)] ∧
      (setup_encryption gen s).crypt_setup_done = 1) ∧
    (∀ (rx : List Nat) (t : State), t = receive_bytes gen s rx →
      (t.gentabs_calls = s.gentabs_calls ∧
        (t.crypt_setup_done = s.crypt_setup_done ∨ t.crypt_setup_done = 0)) ∨
      (t.gentabs_calls = s.gentabs_calls ++
          [((List.range 10).map t.wm_rand, (List.range 6).map t.wm_key)] ∧
        (∀ j, j < 10 → t.wm_rand j = t.wiimote_registers (0x49 - j)) ∧
        (∀ j, j < 6 → t.wm_key j = t.wiimote_registers (0x4F - j)) ∧
        t.wm_ft = (gen t.wm_rand t.wm_key).1 ∧ t.wm_sb = (gen t.wm_rand t.wm_key).2 ∧
        t.crypt_setup_done = 1)) ∧
    ((handle_request s).1.crypt_setup_done = s.crypt_setup_done ∧
      (∀ index value : Nat,
        (wiimote_set_byte s index value).crypt_setup_done = s.crypt_setup_done) ∧
      (∀ buffer : Nat,
        (wiimote_swap_buffers s buffer).1.crypt_setup_done = s.crypt_setup_done) ∧
      (∀ buffer : Nat,
        (wiimote_write_buffer s buffer).crypt_setup_done = s.crypt_setup_done) ∧
      (wiimote_init s).crypt_setup_done = s.crypt_setup_done) := by
  obtain ⟨e1, e2⟩ := setup_encryption_loads gen s
  refine ⟨⟨e1, e2, rfl, rfl, rfl, rfl⟩, ?_,
    ⟨(handle_request_frame s).2.2.1, fun _ _ => rfl, fun _ => rfl, fun _ => rfl, rfl⟩⟩
  intro rx t ht
  rcases receive_bytes_setup_or_not gen s rx with ⟨u, hu1, hu2⟩ | h
  · right
    rw [ht, hu1]
    obtain ⟨f1, f2⟩ := setup_encryption_loads gen u
    obtain ⟨g1, g2, g3, g4, g5⟩ := setup_encryption_tables gen u
    rw [g5]
    refine ⟨?_, f1, f2, g1, g2, g4⟩
    rw [g3, hu2]
  · left
    rw [ht]
    exact h

/-- C17 evaluated: after `wiimote_init`, the events `40 01 .. 06`, `46 07 .. 0C`,
`4C 0D .. 10` run the key setup once, with the seed `0A .. 01` and the key
`10 0F 0E 0D 0C 0B` -/
theorem key_setup_loads_seed_and_key_witness :
    (run gen_one started
      [Event.write [0x40, 1, 2, 3, 4, 5, 6], Event.write [0x46, 7, 8, 9, 10, 11, 12],
       Event.write [0x4C, 13, 14, 15, 16]]).gentabs_calls =
      [([10, 9, 8, 7, 6, 5, 4, 3, 2, 1], [16, 15, 14, 13, 12, 11])] := by
  have h := (key_setup_loads_seed_and_key gen_one (run gen_one started
    [Event.write [0x40, 1, 2, 3, 4, 5, 6], Event.write [0x46, 7, 8, 9, 10, 11, 12]])).2.1
    [0x4C, 13, 14, 15, 16] _ rfl
  rcases h with h | h
  · exact absurd h.1 (by decide)
  · exact h.1.trans (by decide)

/-! ## Start-up -/

/-- The registers `wiimote_init` leaves do not depend on what the register file or the memory
behind it held before -/
theorem wiimote_init_regs_boot (after : Mem) (j : Nat) (hj : j < 256) :
    (wiimote_init (boot after)).wiimote_registers j =
      (wiimote_init (boot (fun _ => 0))).wiimote_registers j := by
  simp only [wiimote_init, boot, set_caldata_default, set_caldata, wiimote_write_buffer,
    List.range', List.foldl, store]
  simp [hj]

theorem started_registers : ∀ j, j < 256 → started.wiimote_registers j = init_registers j := by
  decide

/-- C15: directly after `wiimote_init`, whatever the memory held before, registers
`0xFA .. 0xFF` hold `00 00 A4 20 67 67`, registers `0x20 .. 0x2F` and `0x30 .. 0x3F` both
hold `7F 7F 7F 00 B4 B4 B4 00 FF 00 7F FF 00 7F EA 3F`, register `0xF0` holds `0x55` with
`crypt_setup_done` clear, and every other register holds `0xFF` -/
theorem init_register_file (after : Mem) (j : Nat) (hj : j < 256) :
    (wiimote_init (boot after)).wiimote_registers j = init_registers j ∧
    (List.range' 0xFA 6).map (wiimote_init (boot after)).wiimote_registers =
      [0x00, 0x00, 0xA4, 0x20, 0x67, 0x67] ∧
    (List.range' 0x20 16).map (wiimote_init (boot after)).wiimote_registers =
      [0x7F, 0x7F, 0x7F, 0x00, 0xB4, 0xB4, 0xB4, 0x00, 0xFF, 0x00, 0x7F, 0xFF, 0x00, 0x7F,
        0xEA, 0x3F] ∧
    (List.range' 0x30 16).map (wiimote_init (boot after)).wiimote_registers =
      [0x7F, 0x7F, 0x7F, 0x00, 0xB4, 0xB4, 0xB4, 0x00, 0xFF, 0x00, 0x7F, 0xFF, 0x00, 0x7F,
        0xEA, 0x3F] ∧
    (wiimote_init (boot after)).wiimote_registers 0xF0 = 0x55 ∧
    (wiimote_init (boot after)).crypt_setup_done = 0 ∧
    ((0x20 ≤ j ∧ j ≤ 0x3F) ∨ j = 0xF0 ∨ 0xFA ≤ j ∨
      (wiimote_init (boot after)).wiimote_registers j = 0xFF) := by
  have hs : ∀ i, i < 256 →
      (wiimote_init (boot after)).wiimote_registers i = started.wiimote_registers i :=
    fun i hi => wiimote_init_regs_boot after i hi
  have hm : ∀ l : List Nat, (∀ i ∈ l, i < 256) →
      l.map (wiimote_init (boot after)).wiimote_registers = l.map started.wiimote_registers :=
    fun l hl => List.map_congr_left (fun i hi => hs i (hl i hi))
  refine ⟨?_, ?_, ?_, ?_, ?_, rfl, ?_⟩
  · rw [hs j hj]
    exact started_registers j hj
  · rw [hm _ (by decide)]
    decide
  · rw [hm _ (by decide)]
    decide
  · rw [hm _ (by decide)]
    decide
  · rw [hs _ (by decide)]
    decide
  · rw [hs j hj, started_registers j hj]
    unfold init_registers
    by_cases h1 : 0xFA ≤ j
    · right; right; left; exact h1
    · by_cases h2 : 0x20 ≤ j ∧ j ≤ 0x3F
      · left; exact h2
      · by_cases h3 : j = 0xF0
        · right; left; exact h3
        · right; right; right
          have a1 : ¬ (0xFA ≤ j ∧ j ≤ 0xFF) := fun h => h1 h.1
          have a2 : ¬ (0x20 ≤ j ∧ j ≤ 0x2F) := fun h => h2 ⟨h.1, by omega⟩
          have a3 : ¬ (0x30 ≤ j ∧ j ≤ 0x3F) := fun h => h2 ⟨by omega, h.2⟩
          rw [if_neg a1, if_neg a2, if_neg a3, if_neg h3]

/-- C15 at a concrete register: `0x2E` holds the first checksum byte `0xEA` -/
theorem init_register_file_witness :
    (wiimote_init (boot (fun _ => 7))).wiimote_registers 0x2E = 0xEA :=
  ((init_register_file (fun _ => 7) 0x2E (by decide)).1).trans (by decide)

/-- The report `wiimote_write_buffer` encodes from the neutral input -/
theorem neutral_report_bytes (s : State) (buffer : Nat) (h1 : s.sx = 0x7F) (h2 : s.sy = 0x7F)
    (h3 : s.accelX = 0x80) (h4 : s.accelY = 0x80) (h5 : s.accelZ = 0x80)
    (h6 : s.nunchukReady = false) (h7 : ∀ i, i < 13 → s.buttonStates i = false) :
    (wiimote_write_buffer s buffer).report buffer = [0x9F, 0x1F, 0x40, 0x40, 0x3F, 0xFF] := by
  rw [report_after_write, h1, h2, h3, h4, h5, h6,
    h7 0 (by decide), h7 1 (by decide), h7 2 (by decide), h7 3 (by decide),
    h7 4 (by decide), h7 5 (by decide), h7 6 (by decide), h7 7 (by decide),
    h7 8 (by decide), h7 9 (by decide), h7 10 (by decide), h7 11 (by decide),
    h7 12 (by decide)]
  decide

/-- C12, as the code has it: `wiimote_init` encodes the input state into the active buffer
with `wiimote_write_buffer`, and nothing but `wiimote_set_byte`, `wiimote_swap_buffers` and
the streaming callback changes that buffer afterwards; so after any write events and reads of
other registers the first read request with `0x00` addressed is answered with those six
bytes, through the read-side cipher.  From the static initialisers they are
`9F 1F 40 40 3F FF`, and that is the answer when the read comes first. -/
theorem first_report_after_init (gen : GenTabs) (s : State) (evs : List Event)
    (hev : no_report_read gen (wiimote_init s) evs = true)
    (h0 : (run gen (wiimote_init s) evs).state = 0x00) :
    (handle_request (run gen (wiimote_init s) evs)).2 =
      wire_report (run gen (wiimote_init s) evs) s.curbuf ∧
    (run gen (wiimote_init s) evs).report s.curbuf =
      (wiimote_write_buffer s s.curbuf).report s.curbuf ∧
    (∀ after : Mem, (handle_request (wiimote_init (boot after))).2 =
      [0x9F, 0x1F, 0x40, 0x40, 0x3F, 0xFF]) := by
  obtain ⟨k1, k2, -⟩ := run_kept gen evs _ hev
  have hc : (wiimote_init s).curbuf = s.curbuf := rfl
  have hb : (wiimote_init s).bufs = (wiimote_write_buffer s s.curbuf).bufs := rfl
  refine ⟨?_, ?_, ?_⟩
  · simp only [handle_request, handle_request_select, if_pos h0]
    rw [send_data_buf, k2, hc]
  · unfold State.report
    rw [k1, hb]
  · intro after
    have hst : (wiimote_init (boot after)).state = 0x00 := rfl
    simp only [handle_request, handle_request_select, if_pos hst]
    rw [send_data_buf]
    have hoff : ¬ ((wiimote_init (boot after)).wiimote_registers 0xF0 = 0xAA ∧
        (wiimote_init (boot after)).crypt_setup_done ≠ 0) := fun h => h.2 rfl
    simp only [wire_report, if_neg hoff]
    exact (neutral_report_bytes (boot after) 0 rfl rfl rfl rfl rfl rfl (fun _ _ => rfl))

/-- C12 at a concrete input: after `wiimote_init`, the host reads the identification block
first and then register `0x00`; the report is `9F 1F 40 40 3F FF` -/
theorem first_report_after_init_witness :
    (handle_request (run gen_zero (wiimote_init (boot (fun _ => 0)))
      [Event.write [0xFA], Event.read, Event.write [0x00]])).2 =
      [0x9F, 0x1F, 0x40, 0x40, 0x3F, 0xFF] :=
  ((first_report_after_init gen_zero (boot (fun _ => 0))
    [Event.write [0xFA], Event.read, Event.write [0x00]] (by decide) (by decide)).1).trans
    (by decide)

/-- C12 fails: directly after `wiimote_init`, with no call of `wiimote_set_byte` or
`wiimote_swap_buffers`, register `0x00` is addressed and the read request is answered with
`9F 1F 40 40 3F FF`, not with six zero bytes -/
theorem first_report_not_zero :
    started.state = 0x00 ∧
    (handle_request started).2 = [0x9F, 0x1F, 0x40, 0x40, 0x3F, 0xFF] ∧
    (handle_request started).2 ≠ [0, 0, 0, 0, 0, 0] := by
  decide

/-! ## Read cursor across events -/

theorem cursor_kept_refl (s : State) : cursor_kept s s := ⟨rfl, rfl⟩

theorem cursor_kept_trans {s t u : State} (h1 : cursor_kept s t) (h2 : cursor_kept t u) :
    cursor_kept s u := ⟨h2.1.trans h1.1, h2.2.trans h1.2⟩

theorem receive_byte_readcursor (addr : Nat) (l : RecvLoop) (d : Nat) :
    cursor_kept l.st (receive_byte addr l d).st := by
  unfold receive_byte cursor_kept
  by_cases h1 : addr = 0xF0 ∧ d = 0x55
  · simp only [if_pos h1]
    split <;> exact ⟨rfl, rfl⟩
  · simp only [if_neg h1]
    split <;> exact ⟨rfl, rfl⟩

theorem receive_loop_readcursor (addr : Nat) (data : List Nat) :
    ∀ l : RecvLoop, cursor_kept l.st (data.foldl (receive_byte addr) l).st := by
  induction data with
  | nil => intro l; exact cursor_kept_refl _
  | cons d ds ih =>
    intro l
    exact cursor_kept_trans (receive_byte_readcursor addr l d) (ih (receive_byte addr l d))

theorem receive_finish_readcursor (gen : GenTabs) (s : State) (k : Nat) :
    cursor_kept s (receive_finish gen s k) := by
  by_cases h1 : s.state = 0 <;> by_cases h2 : k = 0 <;>
    simp [receive_finish, h1, h2, setup_encryption, cursor_kept]

/-- A write event leaves the read cursor alone -/
theorem receive_bytes_readcursor (gen : GenTabs) (s : State) (rx : List Nat) :
    cursor_kept s (receive_bytes gen s rx) := by
  match rx with
  | [] => exact receive_finish_readcursor gen s 0
  | [b] =>
    exact cursor_kept_trans (t := { s with state := b % 256 }) ⟨rfl, rfl⟩
      (receive_finish_readcursor gen _ 0)
  | a :: d :: ds =>
    simp only [receive_bytes]
    refine cursor_kept_trans ?_ (receive_finish_readcursor gen _ _)
    have hl := receive_loop_readcursor (a % 256) ((d :: ds).map (· % 256))
      { st := s, curr := a % 256, crypt_keys_received := 0 }
    split
    · exact cursor_kept_trans hl ⟨rfl, rfl⟩
    · exact hl

/-- Every event but a read request from a cursor-tracked register leaves the read cursor
alone -/
theorem step_readcursor (gen : GenTabs) (s : State) (e : Event)
    (h : e = Event.read → s.state = 0x00 ∨ s.state = 0xFA) :
    cursor_kept s (step gen s e) := by
  cases e with
  | write rx => exact receive_bytes_readcursor gen s rx
  | read =>
    have hk := interleaved_cursor_kept s (h rfl)
    exact ⟨hk.1, hk.2⟩
  | set_byte i v => exact ⟨rfl, rfl⟩
  | swap b => exact ⟨rfl, rfl⟩

theorem cursor_default_offset (t : State) :
    (cursor_default t).offset = if t.last_state = t.state then (t.offset + 8) % 256 else 0 := by
  unfold cursor_default
  split <;> rfl

/-- One read request from a register `r` outside `0x00`, `0xFA`, `0x20`, `0x30` advances the
cursor count by one -/
theorem read_default_cursor (t : State) (r k : Nat) (h0 : r ≠ 0x00) (hfa : r ≠ 0xFA)
    (h20 : r ≠ 0x20) (h30 : r ≠ 0x30) (hst : t.state = r) (hc : cursor_after r k t) :
    cursor_after r (k + 1) (handle_request t).1 := by
  have hd : (handle_request t).1 = cursor_default t := by
    rw [handle_request_default t (by rw [hst]; exact h0) (by rw [hst]; exact hfa)
      (by rw [hst]; exact h20) (by rw [hst]; exact h30)]
  rw [hd]
  refine ⟨fun h => absurd h (by omega), fun _ => ⟨?_, ?_⟩⟩
  · rw [cursor_default_last, hst]
  · rw [cursor_default_offset]
    rcases Nat.eq_zero_or_pos k with hk | hk
    · have := hc.1 hk
      rw [if_neg (by rw [hst]; exact this), hk]
    · obtain ⟨c1, c2⟩ := hc.2 hk
      rw [if_pos (by rw [hst]; exact c1), c2]
      have : k + 1 - 1 = (k - 1) + 1 := by omega
      rw [this]
      omega

/-- The read cursor after a sequence of events whose read requests are answered from `r`,
`0x00` or `0xFA` only: it has counted the reads answered from `r` -/
theorem run_cursor (gen : GenTabs) (r : Nat) (h0 : r ≠ 0x00) (hfa : r ≠ 0xFA)
    (h20 : r ≠ 0x20) (h30 : r ≠ 0x30) (evs : List Event) :
    ∀ (s : State) (k : Nat), cursor_after r k s → tracks_only gen r s evs = true →
      cursor_after r (k + reads_from gen r s evs) (run gen s evs) := by
  induction evs with
  | nil => intro s k hc _; exact hc
  | cons e es ih =>
    intro s k hc hev
    have h1 : e.tracks_only r s = true := (Bool.and_eq_true_iff.1 hev).1
    have h2 : tracks_only gen r (step gen s e) es = true := (Bool.and_eq_true_iff.1 hev).2
    show cursor_after r (k + ((if e.reads_from r s then 1 else 0) +
      reads_from gen r (step gen s e) es)) (run gen (step gen s e) es)
    by_cases hr : e.reads_from r s = true
    · have he : e = Event.read ∧ s.state = r := by
        cases e <;> simp_all [Event.reads_from]
      rw [if_pos hr, ← Nat.add_assoc]
      apply ih _ _ _ h2
      rw [he.1]
      exact read_default_cursor s r k h0 hfa h20 h30 he.2 hc
    · rw [if_neg hr, Nat.zero_add]
      apply ih _ _ _ h2
      have hk : cursor_kept s (step gen s e) := by
        apply step_readcursor
        intro he
        subst he
        have hne : s.state ≠ r := by simpa [Event.reads_from] using hr
        simpa [Event.tracks_only, hne] using h1
      exact ⟨fun h => by rw [hk.1]; exact hc.1 h,
        fun h => by rw [hk.1, hk.2]; exact hc.2 h⟩

/-- The read request answered from a register `r` outside `0x00`, `0xFA`, `0x20`, `0x30`
once the cursor has counted `k` reads from `r`: it selects the slice at `r` plus the byte
offset `8 k mod 256`, untruncated -/
theorem read_default_select (t : State) (r k : Nat) (h0 : r ≠ 0x00) (hfa : r ≠ 0xFA)
    (h20 : r ≠ 0x20) (h30 : r ≠ 0x30) (hst : t.state = r) (hc : cursor_after r k t) :
    handle_request_select t =
      (cursor_default t,
        { data := Ptr.reg (r + (8 * k) % 256), size := 8,
          addr := (r + (8 * k) % 256) % 256 }) ∧
    (handle_request t).2 = wire_slice t (r + (8 * k) % 256) 8 ∧
    (handle_request t).1.offset = (8 * k) % 256 ∧
    (handle_request t).1.last_state = r := by
  have a0 : t.state ≠ 0x00 := by rw [hst]; exact h0
  have afa : t.state ≠ 0xFA := by rw [hst]; exact hfa
  have a20 : t.state ≠ 0x20 := by rw [hst]; exact h20
  have a30 : t.state ≠ 0x30 := by rw [hst]; exact h30
  have hn := (read_default_cursor t r k h0 hfa h20 h30 hst hc).2 (by omega)
  have hd : (handle_request t).1 = cursor_default t := by
    rw [handle_request_default t a0 afa a20 a30]
  rw [hd] at hn
  have ho : (cursor_default t).offset = (8 * k) % 256 := by
    rw [hn.2]
    have : k + 1 - 1 = k := by omega
    rw [this]
  have hcal : ¬ (t.state = 0x20 ∨ t.state = 0x30) := fun h => h.elim a20 a30
  refine ⟨?_, ?_, ?_, ?_⟩
  · have h1 : handle_request_select t =
        (cursor_default t,
          { data := Ptr.reg ((cursor_default t).state + (cursor_default t).offset),
            size := 8,
            addr := ((cursor_default t).state + (cursor_default t).offset) % 256 }) := by
      simp only [handle_request_select, if_neg a0, if_neg afa, if_neg hcal]
    rw [h1, (cursor_default_frame t).1, ho, hst]
  · rw [handle_request_default t a0 afa a20 a30, ho, hst]
  · rw [hd, ho]
  · rw [hd, hn.1]

/-- C16: for a register `r` other than `0x00`, `0xFA`, `0x20`, `0x30`, starting with the read
cursor away from `r`: after any events among which `k` read requests were answered from `r`
and none from another cursor-tracked register, the next read request with `r` addressed
selects registers `[r + 8 k, r + 8 k + 8)` and answers with them through the read-side cipher
at address `r + 8 k`, as long as `r + 8 k + 8 ≤ 256`; the offset it leaves is `8 k`, never
reset -/
theorem repeated_reads_advance (gen : GenTabs) (s : State) (r : Nat) (evs : List Event)
    (h0 : r ≠ 0x00) (hfa : r ≠ 0xFA) (h20 : r ≠ 0x20) (h30 : r ≠ 0x30)
    (hls : s.last_state ≠ r) (hev : tracks_only gen r s evs = true)
    (hst : (run gen s evs).state = r) (hk : r + 8 * reads_from gen r s evs + 8 ≤ 256) :
    (handle_request_select (run gen s evs)).2 =
      { data := Ptr.reg (r + 8 * reads_from gen r s evs), size := 8,
        addr := r + 8 * reads_from gen r s evs } ∧
    (handle_request (run gen s evs)).2 =
      wire_slice (run gen s evs) (r + 8 * reads_from gen r s evs) 8 ∧
    (handle_request (run gen s evs)).1.offset = 8 * reads_from gen r s evs ∧
    (handle_request (run gen s evs)).1.last_state = r := by
  have hc0 : cursor_after r 0 s := ⟨fun _ => hls, fun h => absurd h (by omega)⟩
  have hc := run_cursor gen r h0 hfa h20 h30 evs s 0 hc0 hev
  rw [Nat.zero_add] at hc
  obtain ⟨s1, s2, s3, s4⟩ := read_default_select (run gen s evs) r
    (reads_from gen r s evs) h0 hfa h20 h30 hst hc
  have hm : (8 * reads_from gen r s evs) % 256 = 8 * reads_from gen r s evs := by omega
  have hm2 : (r + 8 * reads_from gen r s evs) % 256 = r + 8 * reads_from gen r s evs := by
    omega
  rw [hm] at s1 s2 s3
  rw [hm2] at s1
  exact ⟨by rw [s1], s2, s3, s4⟩

/-- C16 at a concrete input: after `wiimote_init`, register `0x40` is addressed and read
twice, the report is read, `0x40` is addressed again; the next read request selects
registers `[0x50, 0x58)` -/
theorem repeated_reads_advance_witness :
    (handle_request_select (run gen_zero started
      [Event.write [0x40], Event.read, Event.read, Event.write [0x00], Event.read,
        Event.write [0x40]])).2 = { data := Ptr.reg 0x50, size := 8, addr := 0x50 } :=
  (repeated_reads_advance gen_zero started 0x40
    [Event.write [0x40], Event.read, Event.read, Event.write [0x00], Event.read,
      Event.write [0x40]] (by decide) (by decide) (by decide) (by decide) (by decide)
    (by decide) (by decide) (by decide)).1

/-- The state after `k` consecutive read requests from a register `r` outside `0x00`, `0xFA`,
`0x20`, `0x30`, starting with the cursor away from `r` -/
theorem reads_default_inv (s : State) (r : Nat) (h0 : r ≠ 0x00) (hfa : r ≠ 0xFA)
    (h20 : r ≠ 0x20) (h30 : r ≠ 0x30) (hst : s.state = r) (hls : s.last_state ≠ r)
    (k : Nat) :
    (reads k s).state = r ∧
    (reads k s).wiimote_registers = s.wiimote_registers ∧
    (reads k s).crypt_setup_done = s.crypt_setup_done ∧
    (reads k s).wm_ft = s.wm_ft ∧ (reads k s).wm_sb = s.wm_sb ∧
    cursor_after r k (reads k s) := by
  induction k with
  | zero => exact ⟨hst, rfl, rfl, rfl, rfl, fun _ => hls, fun h => absurd h (by omega)⟩
  | succ k ih =>
    obtain ⟨i1, i2, i3, i4, i5, i6⟩ := ih
    obtain ⟨f1, f2, f3, f4, f5⟩ := handle_request_frame (reads k s)
    exact ⟨f1.trans i1, f2.trans i2, f3.trans i3, f4.trans i4, f5.trans i5,
      read_default_cursor (reads k s) r k h0 hfa h20 h30 i1 i6⟩

/-- C18: register `0x40` lies outside `0x00`, `0xFA`, `0x20`, `0x30`, and with it addressed
the 25th consecutive read request selects the slice at index `0x100`, behind the 256-byte
register file, and answers with what lies there.  In general the read after `k` consecutive
ones from such a register `r` selects index `r + (8 k mod 256)`: the byte offset is added to
`r` and the sum is used as it is. -/
theorem read_cursor_leaves_register_file :
    (∃ r k : Nat, r < 256 ∧ r ≠ 0x00 ∧ r ≠ 0xFA ∧ r ≠ 0x20 ∧ r ≠ 0x30 ∧
      ∀ s : State, s.state = r → s.last_state ≠ r →
        ∃ idx : Nat, (handle_request_select (reads k s)).2.data = Ptr.reg idx ∧
          (handle_request_select (reads k s)).2.size = 8 ∧ 0xFF < idx ∧
          (handle_request (reads k s)).2 = wire_slice s idx 8) ∧
    (∀ s : State, s.state = 0x40 → s.last_state ≠ 0x40 →
      (handle_request_select (reads 24 s)).2.data = Ptr.reg 0x100) ∧
    (∀ (s : State) (r k : Nat), r ≠ 0x00 → r ≠ 0xFA → r ≠ 0x20 → r ≠ 0x30 →
      s.state = r → s.last_state ≠ r →
      (handle_request_select (reads k s)).2.data = Ptr.reg (r + (8 * k) % 256) ∧
      (handle_request (reads k s)).2 = wire_slice s (r + (8 * k) % 256) 8) := by
  have gen : ∀ (s : State) (r k : Nat), r ≠ 0x00 → r ≠ 0xFA → r ≠ 0x20 → r ≠ 0x30 →
      s.state = r → s.last_state ≠ r →
      (handle_request_select (reads k s)).2.data = Ptr.reg (r + (8 * k) % 256) ∧
      (handle_request_select (reads k s)).2.size = 8 ∧
      (handle_request (reads k s)).2 = wire_slice s (r + (8 * k) % 256) 8 := by
    intro s r k h0 hfa h20 h30 hst hls
    obtain ⟨i1, i2, i3, i4, i5, i6⟩ := reads_default_inv s r h0 hfa h20 h30 hst hls k
    obtain ⟨s1, s2, -, -⟩ := read_default_select (reads k s) r k h0 hfa h20 h30 i1 i6
    refine ⟨by rw [s1], by rw [s1], ?_⟩
    rw [s2]
    exact wire_slice_congr s (reads k s) _ 8 i2 i3 i4 i5
  refine ⟨⟨0x40, 24, by decide, by decide, by decide, by decide, by decide, ?_⟩, ?_, ?_⟩
  · intro s hst hls
    obtain ⟨g1, g2, g3⟩ := gen s 0x40 24 (by decide) (by decide) (by decide) (by decide)
      hst hls
    exact ⟨0x100, g1, g2, by decide, g3⟩
  · intro s hst hls
    exact (gen s 0x40 24 (by decide) (by decide) (by decide) (by decide) hst hls).1
  · intro s r k h0 hfa h20 h30 hst hls
    obtain ⟨g1, -, g3⟩ := gen s r k h0 hfa h20 h30 hst hls
    exact ⟨g1, g3⟩

/-- C18 evaluated from start-up: after `wiimote_init`, `0x40` is addressed and read 24 times;
the 25th read request selects eight cells from index `0x100` -/
theorem read_cursor_leaves_register_file_witness :
    (handle_request_select (reads 24 (receive_bytes gen_zero started [0x40]))).2.data =
      Ptr.reg 0x100 :=
  read_cursor_leaves_register_file.2.1 (receive_bytes gen_zero started [0x40])
    (by decide) (by decide)

/-- Every event keeps the calibration reads' view of the cursor: while `last_state` is `0x20`
or `0x30` the offset is `0` -/
theorem step_cal_cursor (gen : GenTabs) (s : State) (e : Event) (h : cal_cursor_ok s) :
    cal_cursor_ok (step gen s e) := by
  have keep : ∀ t : State, cursor_kept s t → cal_cursor_ok t := by
    intro t hk hl
    rw [hk.2]
    apply h
    rw [← hk.1]
    exact hl
  cases e with
  | write rx => exact keep _ (receive_bytes_readcursor gen s rx)
  | set_byte i v => exact keep _ ⟨rfl, rfl⟩
  | swap b => exact keep _ ⟨rfl, rfl⟩
  | read =>
    show cal_cursor_ok (handle_request s).1
    rw [handle_request_state]
    split
    · exact keep _ ⟨(stream_step_frame s).2.2.2.2.2.1, (stream_step_frame s).2.2.2.2.2.2⟩
    · split
      · exact h
      · split
        · next hcal =>
          intro hl
          by_cases hrep : s.last_state = s.state
          · rw [(cursor_cal_repeat s hrep).1] at hl
            rcases hl with hl | hl <;> exact absurd hl (by decide)
          · exact (cursor_cal_fresh s hrep).2
        · next h0 hfa hcal =>
          intro hl
          rw [cursor_default_last] at hl
          exact absurd hl hcal

theorem run_cal_cursor (gen : GenTabs) (evs : List Event) :
    ∀ s : State, cal_cursor_ok s → cal_cursor_ok (run gen s evs) := by
  induction evs with
  | nil => intro s h; exact h
  | cons e es ih => intro s h; exact ih _ (step_cal_cursor gen s e h)

/-- C19: in every state reached from start-up by write events, read requests,
`wiimote_set_byte` and `wiimote_swap_buffers` calls, the offset is `0` whenever `last_state`
is `0x20` or `0x30`; so a read request with `r = 0x20` or `r = 0x30` addressed selects
`[r, r + 8)` or `[r + 8, r + 16)`, inside the calibration copy at `r`, whatever offset
earlier reads of other registers left -/
theorem calibration_reads_stay_inside (gen : GenTabs) (after : Mem) (evs : List Event) :
    ((run gen (wiimote_init (boot after)) evs).last_state = 0x20 ∨
        (run gen (wiimote_init (boot after)) evs).last_state = 0x30 →
      (run gen (wiimote_init (boot after)) evs).offset = 0) ∧
    ((run gen (wiimote_init (boot after)) evs).state = 0x20 ∨
        (run gen (wiimote_init (boot after)) evs).state = 0x30 →
      ((handle_request_select (run gen (wiimote_init (boot after)) evs)).2.data =
          Ptr.reg (run gen (wiimote_init (boot after)) evs).state ∧
        (handle_request (run gen (wiimote_init (boot after)) evs)).1.offset = 0 ∧
        (handle_request (run gen (wiimote_init (boot after)) evs)).2 =
          wire_slice (run gen (wiimote_init (boot after)) evs)
            (run gen (wiimote_init (boot after)) evs).state 8) ∨
      ((handle_request_select (run gen (wiimote_init (boot after)) evs)).2.data =
          Ptr.reg ((run gen (wiimote_init (boot after)) evs).state + 8) ∧
        (handle_request (run gen (wiimote_init (boot after)) evs)).1.offset = 8 ∧
        (handle_request (run gen (wiimote_init (boot after)) evs)).2 =
          wire_slice (run gen (wiimote_init (boot after)) evs)
            ((run gen (wiimote_init (boot after)) evs).state + 8) 8)) := by
  have h0 : cal_cursor_ok (wiimote_init (boot after)) := by
    intro hl
    have : (wiimote_init (boot after)).last_state = 0xFF := rfl
    rw [this] at hl
    rcases hl with hl | hl <;> exact absurd hl (by decide)
  have hinv := run_cal_cursor gen evs _ h0
  generalize run gen (wiimote_init (boot after)) evs = t at hinv ⊢
  refine ⟨hinv, fun hcal => ?_⟩
  rw [handle_request_select_cal t hcal, handle_request_cal t hcal]
  by_cases hrep : t.last_state = t.state
  · right
    have ho : t.offset = 0 := hinv (by rw [hrep]; exact hcal)
    have hoff : (cursor_cal t).offset = 8 := by
      rw [(cursor_cal_repeat t hrep).2, ho]
    rw [hoff]
    exact ⟨rfl, rfl, rfl⟩
  · left
    rw [(cursor_cal_fresh t hrep).2]
    exact ⟨rfl, rfl, rfl⟩

/-- C19 at a concrete run: after `wiimote_init`, register `0x40` is read five times (offset
`32`), then `0x20` is addressed; the read request selects `[0x20, 0x28)`, the next one
`[0x28, 0x30)` -/
theorem calibration_reads_stay_inside_witness :
    (run gen_zero (wiimote_init (boot (fun _ => 0)))
      [Event.write [0x40], Event.read, Event.read, Event.read, Event.read, Event.read,
        Event.write [0x20]]).offset = 32 ∧
    (handle_request_select (run gen_zero (wiimote_init (boot (fun _ => 0)))
      [Event.write [0x40], Event.read, Event.read, Event.read, Event.read, Event.read,
        Event.write [0x20]])).2.data = Ptr.reg 0x20 ∧
    (handle_request_select (run gen_zero (wiimote_init (boot (fun _ => 0)))
      [Event.write [0x40], Event.read, Event.read, Event.read, Event.read, Event.read,
        Event.write [0x20], Event.read])).2.data = Ptr.reg 0x28 := by
  have h1 := (calibration_reads_stay_inside gen_zero (fun _ => 0)
    [Event.write [0x40], Event.read, Event.read, Event.read, Event.read, Event.read,
      Event.write [0x20]]).2 (Or.inl (by decide))
  have h2 := (calibration_reads_stay_inside gen_zero (fun _ => 0)
    [Event.write [0x40], Event.read, Event.read, Event.read, Event.read, Event.read,
      Event.write [0x20], Event.read]).2 (Or.inl (by decide))
  refine ⟨by decide, ?_, ?_⟩
  · rcases h1 with h | h
    · exact h.1
    · exact absurd h.2.1 (by decide)
  · rcases h2 with h | h
    · exact absurd h.2.1 (by decide)
    · exact h.1

/-! ## The report and the register file -/

theorem wire_report_congr (s t : State) (id : Nat)
    (h1 : t.wiimote_registers 0xF0 = s.wiimote_registers 0xF0)
    (h2 : t.crypt_setup_done = s.crypt_setup_done)
    (h3 : t.wm_ft = s.wm_ft) (h4 : t.wm_sb = s.wm_sb) (h5 : t.bufs = s.bufs) :
    wire_report t id = wire_report s id := by
  simp [wire_report, h1, h2, h3, h4, h5]

/-- The answer to a read request with `0x00` addressed -/
theorem handle_request_report (s : State) (h0 : s.state = 0x00) :
    (handle_request s).2 = wire_report s s.curbuf := by
  simp only [handle_request, handle_request_select, if_pos h0]
  rw [send_data_buf]

/-- A write event to cells below `0x06` changes nothing the report read looks at -/
theorem low_write_keeps_report (gen : GenTabs) (s : State) (a : Nat) (data : List Nat)
    (hd : ∀ d ∈ data, d < 256) (h1 : 1 ≤ data.length) (h6 : a + data.length ≤ 6) :
    (receive_bytes gen s (a :: data)).state = s.state ∧
    (receive_bytes gen s (a :: data)).curbuf = s.curbuf ∧
    wire_report (receive_bytes gen s (a :: data)) s.curbuf = wire_report s s.curbuf := by
  have ha : a < 256 := by omega
  have ha256 : a % 256 = a := Nat.mod_eq_of_lt ha
  match data, hd, h1, h6 with
  | d0 :: ds, hd, h1, h6 =>
    obtain ⟨k1, k2, -⟩ := receive_bytes_kept gen s (a :: d0 :: ds)
    have hcsd := receive_bytes_ready gen s a (d0 :: ds) ha hd h1 (by omega)
    rw [if_neg (fun h => by omega), if_neg (fun h => by omega)] at hcsd
    obtain ⟨t, k, ht, he, hk⟩ := receive_bytes_multi gen s a d0 ds ha
    have hk0 : k = 0 := by
      by_contra hne
      have := hk.1 hne
      omega
    have htab : tables_kept s (receive_bytes gen s (a :: d0 :: ds)) := by
      rw [he, hk0]
      exact tables_kept_trans ht (receive_finish_idle gen t)
    have hF0 : (receive_bytes gen s (a :: d0 :: ds)).wiimote_registers 0xF0 =
        s.wiimote_registers 0xF0 := by
      rw [(receive_bytes_regs gen s a d0 ds).1, ha256]
      unfold receive_loop
      rw [map_mod_bytes _ hd]
      exact receive_loop_outside a (d0 :: ds)
        { st := s, curr := a, crypt_keys_received := 0 } ha 0xF0
        (fun i hi => by show 0xF0 ≠ (a + i) % 256; omega)
    exact ⟨htab.1, k2,
      wire_report_congr s _ s.curbuf hF0 hcsd htab.2.1 htab.2.2.1 k1⟩

/-- C21: with `0x00` addressed, the read request is answered from the active buffer through
the read-side cipher and nothing else, so a state that differs only in register cells
`0x00 .. 0x05` gives the same response, as does the state after a host write event to cells
within `0x00 .. 0x05`; `wiimote_write_buffer`, `wiimote_set_byte` and `wiimote_swap_buffers`
leave the register file as it is -/
theorem report_read_ignores_register_cells (gen : GenTabs) (s : State) (m : Mem)
    (hst : s.state = 0x00) (hm : ∀ j, 6 ≤ j → m j = s.wiimote_registers j) :
    (handle_request { s with wiimote_registers := m }).2 = (handle_request s).2 ∧
    (handle_request s).2 = wire_report s s.curbuf ∧
    (∀ (a : Nat) (data : List Nat), (∀ d ∈ data, d < 256) → 1 ≤ data.length →
      a + data.length ≤ 6 →
      (handle_request (receive_bytes gen s (a :: data))).2 = (handle_request s).2) ∧
    (∀ buffer : Nat,
      (wiimote_write_buffer s buffer).wiimote_registers = s.wiimote_registers) ∧
    (∀ index value : Nat,
      (wiimote_set_byte s index value).wiimote_registers = s.wiimote_registers) ∧
    (∀ buffer : Nat,
      (wiimote_swap_buffers s buffer).1.wiimote_registers = s.wiimote_registers) := by
  have hs := handle_request_report s hst
  refine ⟨?_, hs, ?_, fun _ => rfl, fun _ _ => rfl, fun _ => rfl⟩
  · have hr := handle_request_report { s with wiimote_registers := m } hst
    rw [hr, hs]
    exact wire_report_congr s { s with wiimote_registers := m } s.curbuf
      (hm 0xF0 (by decide)) rfl rfl rfl rfl
  · intro a data hd h1 h6
    obtain ⟨l1, l2, l3⟩ := low_write_keeps_report gen s a data hd h1 h6
    rw [handle_request_report _ (l1.trans hst), l2, l3, hs]

/-- C21 at a concrete input: after `wiimote_init`, overwriting register cells `0x00 .. 0x05`
with `0x11`, or the host write event `00 11 11 11 11 11 11`, leaves the answer to the report
read as it is -/
theorem report_read_ignores_register_cells_witness :
    (handle_request { started with
      wiimote_registers := fun j => if j < 6 then 0x11 else started.wiimote_registers j }).2 =
      (handle_request started).2 ∧
    (handle_request (receive_bytes gen_zero started
      [0x00, 0x11, 0x11, 0x11, 0x11, 0x11, 0x11])).2 = (handle_request started).2 := by
  have h := report_read_ignores_register_cells gen_zero started
    (fun j => if j < 6 then 0x11 else started.wiimote_registers j) (by decide)
    (fun j hj => if_neg (by omega))
  exact ⟨h.1, h.2.2.1 0x00 [0x11, 0x11, 0x11, 0x11, 0x11, 0x11] (by decide) (by decide)
    (by decide)⟩

end Gunchuk
